import Mathlib

/-!
Verification of the juju/lru repository: an arena-backed LRU cache engine
(`LRU`, in lru.go) and a string-interning cache built the same way
(`StringCache`, in strings.go).

Modelling conventions (shallow embedding of the Go source):
* Go `int` fields (`size`, `maxSize`, counters) are `Int`; Go `uint32`
  values are `Nat` together with an explicit `u32` cast (`% 2^32`) at every
  place the source converts with `uint32(...)`.
* A Go slice is a `List` indexed with `lget`/`lset`; `lget` out of range
  yields the zero value (the source never indexes out of range on the
  states the theorems speak about), `lset` out of range is the identity.
* The Go `map` is an association list (`mapFind`/`mapInsert`/`mapDelete`);
  keys are unique in every reachable map.  Rebuilding a map with the same
  contents (in `realloc`/`Prealloc`) is the identity on the association
  list, since a Go map is unordered.
* The `root` pointer always aliases slot 0 of the current buffer in the
  source (every assignment to `root` directly follows a buffer
  replacement), so the embedding folds `root` into slot 0 and the
  `sc.root != &sc.buf[0]` check of `Validate` into a check that always
  passes.
* A Go `panic` makes a constructor or `Add` return `none`.
* A Go `string` is modelled as `GoStr`: content together with an
  allocation identity, so that the interning guarantee (`Intern` returns
  the canonical stored instance) is expressible.  Go `==` on strings and
  map keying compare content only.
-/

set_option maxHeartbeats 1000000

namespace JujuLru

/-- Go's `uint32(n)` conversion of an `int`: the value modulo `2^32`. -/
def u32 (n : Int) : Nat := (n % (2 ^ 32 : Int)).toNat

/-- Association-list model of a Go `map[α]uint32`: lookup. -/
def mapFind [DecidableEq α] : List (α × Nat) → α → Option Nat
  | [], _ => none
  | (k', v) :: rest, k => if k' = k then some v else mapFind rest k

/-- Association-list model of a Go `map[α]uint32`: `m[k] = v`. -/
def mapInsert [DecidableEq α] : List (α × Nat) → α → Nat → List (α × Nat)
  | [], k, v => [(k, v)]
  | (k', v') :: rest, k, v =>
    if k' = k then (k, v) :: rest else (k', v') :: mapInsert rest k v

/-- Association-list model of a Go `map[α]uint32`: `delete(m, k)`. -/
def mapDelete [DecidableEq α] : List (α × Nat) → α → List (α × Nat)
  | [], _ => []
  | (k', v') :: rest, k =>
    if k' = k then mapDelete rest k else (k', v') :: mapDelete rest k

/-- Slice read `l[i]`, yielding the zero value out of range. -/
def lget [Inhabited α] (l : List α) (i : Nat) : α := (l.get? i).getD default

/-- Slice write `l[i] = v`, the identity out of range. -/
def lset : List α → Nat → α → List α
  | [], _, _ => []
  | _ :: rest, 0, v => v :: rest
  | x :: rest, i + 1, v => x :: lset rest i v

/-- Go's `copy(dst, src)`: overwrite the first `min |src| |dst|` entries of
`dst` with those of `src`, keeping `dst`'s length. -/
def listCopy [Inhabited α] (src dst : List α) : List α :=
  (List.range dst.length).map fun i => if i < src.length then lget src i else lget dst i

/-- `cacheEntry` of lru.go.  The Go zero value has indices 0 and nil
key/value, modelled by `none`. -/
structure cacheEntry (K V : Type) where
  prev : Nat
  next : Nat
  key : Option K
  value : Option V
deriving DecidableEq

instance : Inhabited (cacheEntry K V) := ⟨⟨0, 0, none, none⟩⟩

/-- `maxLRUSize` of lru.go: `1<<32 - 1`. -/
def maxLRUSize : Int := 2 ^ 32 - 1

/-- The `LRU` struct of lru.go.  `root` aliases `buf[0]`. -/
structure LRU (K V : Type) where
  size : Int
  maxSize : Int
  buf : List (cacheEntry K V)
  elements : List (Option K × Nat)
deriving DecidableEq

/-- `New` of lru.go.  The panic on an invalid size is `none`. -/
def New (K V : Type) (size : Int) : Option (LRU K V) :=
  if size > maxLRUSize ∨ size ≤ 0 then none
  else
    let initialBufSize : Int := if size + 1 > 100 then 101 else size + 1
    some { size := 0, maxSize := size,
           buf := List.replicate initialBufSize.toNat default,
           elements := [] }

/-- `Len` of lru.go. -/
def Len (lru : LRU K V) : Int := lru.size

/-- The single write `buf[j].next = n` of the source. -/
def setNextF (l : List (cacheEntry K V)) (j n : Nat) : List (cacheEntry K V) :=
  lset l j { lget l j with next := n }

/-- The single write `buf[j].prev = p` of the source. -/
def setPrevF (l : List (cacheEntry K V)) (j p : Nat) : List (cacheEntry K V) :=
  lset l j { lget l j with prev := p }

/-- The consecutive writes `buf[j].prev = p; buf[j].next = n` of the
source (no read of slot `j` happens between them). -/
def setLinksF (l : List (cacheEntry K V)) (j p n : Nat) : List (cacheEntry K V) :=
  lset l j { lget l j with prev := p, next := n }

/-- `moveToFront` of lru.go, with the entry pointer writes replayed in
source order (each field is read at the moment the source reads it). -/
def moveToFront (lru : LRU K V) (elem : Nat) : LRU K V :=
  if (lget lru.buf 0).next = elem then lru
  else
    let b1 :=
      if (lget lru.buf elem).prev ≠ 0 then
        let bu := setNextF lru.buf (lget lru.buf elem).prev (lget lru.buf elem).next
        setPrevF bu (lget bu elem).next (lget bu elem).prev
      else lru.buf
    let nxt := (lget b1 0).next
    let b2 := setLinksF b1 elem 0 nxt
    let b3 := setNextF b2 0 elem
    let b4 := setPrevF b3 nxt elem
    { lru with buf := b4 }

/-- The grown arena length computed by `realloc` of lru.go:
`(len(buf)-1)*2` capped at `maxSize`, plus the reserved root slot. -/
def lruGrowSize (lru : LRU K V) : Int :=
  (if ((lru.buf.length : Int) - 1) * 2 > lru.maxSize then lru.maxSize
   else ((lru.buf.length : Int) - 1) * 2) + 1

/-- `realloc` of lru.go.  Rebuilding the map with identical contents once
`nextSize = maxSize` is the identity on the association list. -/
def lruRealloc (lru : LRU K V) : LRU K V :=
  { lru with buf := listCopy lru.buf (List.replicate (lruGrowSize lru).toNat default) }

/-- The hit branch of `Add`: move the slot to the front, then update its
value through the entry pointer. -/
def addHit (lru : LRU K V) (elem : Nat) (value : V) : LRU K V :=
  { moveToFront lru elem with
    buf := lset (moveToFront lru elem).buf elem
      ({ lget (moveToFront lru elem).buf elem with value := some value }) }

/-- The `size < maxSize` branch of `Add`'s miss path: `lru.size++`,
`elem = uint32(lru.size)`, realloc when the new size reaches the arena
length. -/
def addNewSlot (lru : LRU K V) : LRU K V × Nat :=
  (if lru.size + 1 ≥ ((lru.buf.length : Int)) then lruRealloc { lru with size := lru.size + 1 }
   else { lru with size := lru.size + 1 },
   u32 (lru.size + 1))

/-- The at-capacity branch of `Add`'s miss path: reuse `root.prev` and
remove its old key from the lookup table. -/
def addEvict (lru : LRU K V) [DecidableEq K] : LRU K V × Nat :=
  ({ lru with elements := mapDelete lru.elements (lget lru.buf ((lget lru.buf 0).prev)).key },
   (lget lru.buf 0).prev)

/-- The tail of `Add`'s miss path: write key/value into the slot, insert
the lookup entry, and move the slot to the front. -/
def addFill (lru : LRU K V) [DecidableEq K] (key : K) (value : V) (elem : Nat) : LRU K V :=
  moveToFront
    { lru with
      buf := lset lru.buf elem ({ lget lru.buf elem with key := some key, value := some value }),
      elements := mapInsert lru.elements (some key) elem }
    elem

/-- The shared tail of `Add`'s miss path: the explicit bounds-check panic
(`none`) followed by `addFill`. -/
def addMiss [DecidableEq K] (step : LRU K V × Nat) (key : K) (value : V) :
    Option (LRU K V) :=
  if step.2 ≥ u32 (step.1.buf.length : Int) then none
  else some (addFill step.1 key value step.2)

/-- `Add` of lru.go.  The explicit `panic` on an out-of-range element is
`none`. -/
def Add (lru : LRU K V) [DecidableEq K] (key : K) (value : V) : Option (LRU K V) :=
  match mapFind lru.elements (some key) with
  | some elem => some (addHit lru elem value)
  | none =>
    addMiss (if lru.size < lru.maxSize then addNewSlot lru else addEvict lru) key value

/-- `Get` of lru.go: the answer pair together with the updated cache. -/
def Get (lru : LRU K V) [DecidableEq K] (key : K) : (Option V × Bool) × LRU K V :=
  match mapFind lru.elements (some key) with
  | some elem =>
    let lru := moveToFront lru elem
    (((lget lru.buf elem).value, true), lru)
  | none => ((none, false), lru)

/-- `Peek` of lru.go: reads only, never writes the receiver. -/
def Peek (lru : LRU K V) [DecidableEq K] (key : K) : Option V × Bool :=
  match mapFind lru.elements (some key) with
  | some elem => ((lget lru.buf elem).value, true)
  | none => (none, false)

/-- A Go string: content plus backing-allocation identity.  `==` and map
keys compare content only. -/
structure GoStr where
  content : String
  id : Nat
deriving DecidableEq

instance : Inhabited GoStr := ⟨⟨"", 0⟩⟩

/-- `stringElem` of strings.go. -/
structure stringElem where
  value : GoStr
  prev : Nat
  next : Nat
deriving DecidableEq

instance : Inhabited stringElem := ⟨⟨default, 0, 0⟩⟩

/-- The `StringCache` struct of strings.go.  `root` aliases `buf[0]`. -/
structure StringCache where
  maxSize : Int
  size : Int
  hitCount : Int
  missCount : Int
  buf : List stringElem
  values : List (String × Nat)
deriving DecidableEq

/-- `init` of strings.go. -/
def scInit (maxSize : Int) : StringCache :=
  let initialSize : Int := if maxSize + 1 > 100 then 101 else maxSize + 1
  { maxSize := maxSize, size := 0, hitCount := 0, missCount := 0,
    buf := List.replicate initialSize.toNat default, values := [] }

/-- `NewStringCache` of strings.go: panics (`none`) when `size > 1<<32`
(the explicit check), and also when `init` itself panics on a negative
capacity: there `initialSize = size + 1 ≤ 0` (the cap to 101 applies only
above 100), so either `make` rejects the negative length / map hint or
`&sc.buf[0]` faults on the empty arena. -/
def NewStringCache (size : Int) : Option StringCache :=
  if size > 2 ^ 32 then none
  else if (if size + 1 > 100 then (101 : Int) else size + 1) ≤ 0 then none
  else some (scInit size)

/-- `Len` of strings.go. -/
def scLen (sc : StringCache) : Int := sc.size

/-- `HitCounts` of strings.go. -/
def HitCounts (sc : StringCache) : Int × Int := (sc.hitCount, sc.missCount)

/-- The single write `buf[j].next = n` of strings.go. -/
def sSetNextF (l : List stringElem) (j n : Nat) : List stringElem :=
  lset l j { lget l j with next := n }

/-- The single write `buf[j].prev = p` of strings.go. -/
def sSetPrevF (l : List stringElem) (j p : Nat) : List stringElem :=
  lset l j { lget l j with prev := p }

/-- The consecutive writes `buf[j].prev = p; buf[j].next = n` of
strings.go. -/
def sSetLinksF (l : List stringElem) (j p n : Nat) : List stringElem :=
  lset l j { lget l j with prev := p, next := n }

/-- `moveToFront` of strings.go (same write sequence as the engine's). -/
def scMoveToFront (sc : StringCache) (elem : Nat) : StringCache :=
  if (lget sc.buf 0).next = elem then sc
  else
    let b1 :=
      if (lget sc.buf elem).prev ≠ 0 then
        let bu := sSetNextF sc.buf (lget sc.buf elem).prev (lget sc.buf elem).next
        sSetPrevF bu (lget bu elem).next (lget bu elem).prev
      else sc.buf
    let nxt := (lget b1 0).next
    let b2 := sSetLinksF b1 elem 0 nxt
    let b3 := sSetNextF b2 0 elem
    let b4 := sSetPrevF b3 nxt elem
    { sc with buf := b4 }

/-- The grown arena length computed by `realloc(0)` of strings.go:
`(len(buf)-1)*3` capped at `maxSize`, plus the reserved root slot. -/
def scGrowSize (sc : StringCache) : Int :=
  (if ((sc.buf.length : Int) - 1) * 3 > sc.maxSize then sc.maxSize
   else ((sc.buf.length : Int) - 1) * 3) + 1

/-- `realloc` of strings.go: called with 0 it grows geometrically (factor
3, capped at `maxSize`, plus the root slot). -/
def scRealloc (sc : StringCache) (nextSize : Int) : StringCache :=
  { sc with buf := listCopy sc.buf (List.replicate (if nextSize = 0 then scGrowSize sc else nextSize).toNat default) }

/-- The write `sc.buf[elem].value = v` of strings.go. -/
def scSetValue (sc : StringCache) (elem : Nat) (v : GoStr) : StringCache :=
  { sc with buf := lset sc.buf elem ({ lget sc.buf elem with value := v }) }

/-- The `size < maxSize` branch of `Intern`'s miss path: `sc.size++`,
`elem = uint32(sc.size)`, realloc when the new size reaches the arena
length, then store the string. -/
def internNew (sc : StringCache) (v : GoStr) : StringCache × Nat :=
  (scSetValue
    (if sc.size + 1 ≥ ((sc.buf.length : Int)) then scRealloc { sc with size := sc.size + 1 } 0
     else { sc with size := sc.size + 1 })
    (u32 (sc.size + 1)) v,
   u32 (sc.size + 1))

/-- The at-capacity branch of `Intern`'s miss path: reuse `root.prev`,
drop its old string from the lookup table, and store the new string. -/
def internEvict (sc : StringCache) (v : GoStr) : StringCache × Nat :=
  (scSetValue
    { sc with values := mapDelete sc.values (lget sc.buf ((lget sc.buf 0).prev)).value.content }
    ((lget sc.buf 0).prev) v,
   (lget sc.buf 0).prev)

/-- The shared tail of `Intern`'s miss path: move the filled slot to the
front and insert the lookup entry. -/
def internMiss (step : StringCache × Nat) (v : GoStr) : GoStr × StringCache :=
  (v, { scMoveToFront step.1 step.2 with
        values := mapInsert (scMoveToFront step.1 step.2).values v.content step.2 })

/-- `Intern` of strings.go: returns the canonical string and the updated
cache. -/
def Intern (sc : StringCache) (v : GoStr) : GoStr × StringCache :=
  match mapFind sc.values v.content with
  | some elem =>
    ((lget (scMoveToFront sc elem).buf elem).value,
     { scMoveToFront sc elem with hitCount := (scMoveToFront sc elem).hitCount + 1 })
  | none =>
    internMiss
      (if sc.size < sc.maxSize then internNew { sc with missCount := sc.missCount + 1 } v
       else internEvict { sc with missCount := sc.missCount + 1 } v) v

/-- `Contains` of strings.go. -/
def Contains (sc : StringCache) (v : GoStr) : Bool := (mapFind sc.values v.content).isSome

/-- `Prealloc` of strings.go (the map rebuild keeps identical contents). -/
def Prealloc (sc : StringCache) : StringCache := scRealloc sc (sc.maxSize + 1)

/-- The walk of `Validate` of strings.go.  `fuel` bounds the recursion; it
is spent only on loop iterations, and exhausting it reports an error (the
Go loop would not have terminated within that many steps).  Reading
`sc.buf[cur]` out of range is a Go panic, reported as an error here. -/
def scValidateLoop (sc : StringCache) : Nat → Nat → Nat → Option String
  | fuel, cur, count =>
    if cur = 0 then
      if (count : Int) ≠ sc.size then some "incorrect count"
      else if (sc.values.length : Int) ≠ sc.size then some "value map has wrong count"
      else none
    else
      match fuel with
      | 0 => some "walk did not terminate"
      | fuel' + 1 =>
        if cur ≥ sc.buf.length then some "index out of range"
        else
          let curS := lget sc.buf cur
          let count1 := count + 1
          if curS.prev > u32 (sc.buf.length : Int) then some "the value prev > len(buf)"
          else
            let prev := lget sc.buf curS.prev
            if prev.next ≠ cur then some "the prev.next is not this"
            else if curS.next > u32 (sc.buf.length : Int) then some "the value next > len(buf)"
            else
              let next := lget sc.buf curS.next
              if next.prev ≠ cur then some "the next.prev is not this"
              else if (mapFind sc.values curS.value.content).getD 0 ≠ cur then
                some "the map doesn't point to cur"
              else scValidateLoop sc fuel' curS.next count1

/-- `Validate` of strings.go.  The `sc.root != &sc.buf[0]` check always
passes (root aliases slot 0, see the module comment). -/
def Validate (sc : StringCache) : Option String :=
  scValidateLoop sc (sc.size.toNat + 1) (lget sc.buf 0).next 0

/-- The public mutating/reading operations of the engine, for claims over
operation sequences. -/
inductive LOp (K V : Type) where
  | add : K → V → LOp K V
  | get : K → LOp K V
  | peek : K → LOp K V
deriving DecidableEq

/-- One engine call; `none` is a panic. -/
def applyLOp [DecidableEq K] (lru : LRU K V) : LOp K V → Option (LRU K V)
  | .add k v => Add lru k v
  | .get k => some (Get lru k).2
  | .peek _ => some lru

/-- Run a sequence of engine calls. -/
def runLOps [DecidableEq K] (lru : LRU K V) : List (LOp K V) → Option (LRU K V)
  | [] => some lru
  | op :: rest =>
    match applyLOp lru op with
    | none => none
    | some lru' => runLOps lru' rest

/-- Run a sequence of `Add` calls. -/
def runAdds [DecidableEq K] (lru : LRU K V) (l : List (K × V)) : Option (LRU K V) :=
  runLOps lru (l.map fun p => .add p.1 p.2)

/-- The public operations of the string cache. -/
inductive SOp where
  | intern : GoStr → SOp
  | contains : GoStr → SOp
  | validate : SOp
  | prealloc : SOp
deriving DecidableEq

/-- One string-cache call (`Contains`/`Validate` read only). -/
def applySOp (sc : StringCache) : SOp → StringCache
  | .intern v => (Intern sc v).2
  | .contains _ => sc
  | .validate => sc
  | .prealloc => Prealloc sc

/-- Run a sequence of string-cache calls. -/
def runSOps (sc : StringCache) : List SOp → StringCache
  | [] => sc
  | op :: rest => runSOps (applySOp sc op) rest

/-- The association list built by filling an empty cache with fresh keys
`f 1, …, f j` mapped to slots `1, …, j` in order. -/
def fillMap (f : Nat → α) : Nat → List (α × Nat)
  | 0 => []
  | j + 1 => fillMap f j ++ [(f (j + 1), j + 1)]

/-- The operation sequence that fills a cache with the fresh keys
`ks 1, …, ks j` (values `vs 1, …, vs j`) in order. -/
def fillOps (ks : Nat → K) (vs : Nat → V) : Nat → List (LOp K V)
  | 0 => []
  | j + 1 => fillOps ks vs j ++ [.add (ks (j + 1)) (vs (j + 1))]

/-- Exact description of the engine state after filling an empty cache of
capacity `N` with `j ≤ N` distinct fresh keys in order: slot `i` holds the
i-th key, the recency chain is `j, j-1, …, 1`, untouched slots are still
zeroed, and the lookup table lists the keys in insertion order. -/
def FillDesc (ks : Nat → K) (vs : Nat → V) (N : Int) (j : Nat) (lru : LRU K V) : Prop :=
  lru.size = (j : Int) ∧
  lru.maxSize = N ∧
  2 ≤ lru.buf.length ∧
  (j : Int) < (lru.buf.length : Int) ∧
  (lru.buf.length : Int) ≤ N + 1 ∧
  lru.buf.length < 2 ^ 32 ∧
  lget lru.buf 0 = ⟨(if j = 0 then 0 else 1), j, none, none⟩ ∧
  (∀ i, 1 ≤ i → i ≤ j →
    lget lru.buf i = ⟨(if i = j then 0 else i + 1), i - 1, some (ks i), some (vs i)⟩) ∧
  (∀ i, j < i → lget lru.buf i = default) ∧
  lru.elements = fillMap (fun i => some (ks i)) j

/-- Whether an engine operation is a `Peek`. -/
def isPeekOp : LOp K V → Bool
  | .peek _ => true
  | _ => false

/-- A small sample engine cache (capacity 2), used to instantiate
universally quantified theorems at a concrete input. -/
def sampleLru : LRU Nat Nat := (New Nat Nat 2).getD ⟨0, 0, [], []⟩

/-- A small sample string cache (capacity 2). -/
def sampleSC : StringCache := (NewStringCache 2).getD (scInit 2)

/-- Pointwise agreement of payload (key/value) fields between two engine
buffers of equal length. -/
def LinkEq (a b : List (cacheEntry K V)) : Prop :=
  a.length = b.length ∧
  ∀ i, (lget a i).key = (lget b i).key ∧ (lget a i).value = (lget b i).value

/-- Pointwise agreement of the stored strings between two string-cache
buffers of equal length. -/
def SLinkEq (a b : List stringElem) : Prop :=
  a.length = b.length ∧ ∀ i, (lget a i).value = (lget b i).value

/-! ### Basic lemmas about the slice and map models -/

theorem length_lset (l : List α) (i : Nat) (v : α) : (lset l i v).length = l.length := by
  induction l generalizing i with
  | nil => rfl
  | cons x rest ih =>
    cases i with
    | zero => rfl
    | succ n => simpa [lset] using ih n

theorem lget_lset [Inhabited α] (l : List α) (i : Nat) (v : α) (j : Nat) :
    lget (lset l i v) j = if j = i ∧ i < l.length then v else lget l j := by
  induction l generalizing i j with
  | nil => simp [lset, lget]
  | cons x rest ih =>
    cases i with
    | zero =>
      cases j with
      | zero => simp [lset, lget]
      | succ m => simp [lset, lget]
    | succ n =>
      cases j with
      | zero => simp [lset, lget]
      | succ m =>
        simpa [lset, lget, Nat.succ_lt_succ_iff] using ih n m

theorem lget_lset_self [Inhabited α] (l : List α) (i : Nat) (v : α) (h : i < l.length) :
    lget (lset l i v) i = v := by
  simp [lget_lset, h]

theorem lget_lset_ne [Inhabited α] (l : List α) (i : Nat) (v : α) (j : Nat) (h : j ≠ i) :
    lget (lset l i v) j = lget l j := by
  simp [lget_lset, h]

theorem lget_replicate [Inhabited α] (n i : Nat) :
    lget (List.replicate n (default : α)) i = default := by
  unfold lget
  rcases Nat.lt_or_ge i n with h | h
  · rw [List.get?_eq_get (by simpa using h)]
    simp
  · rw [List.get?_eq_none.2 (by simpa using h)]
    rfl

theorem lget_oob [Inhabited α] (l : List α) (i : Nat) (h : l.length ≤ i) :
    lget l i = default := by
  unfold lget
  rw [List.get?_eq_none.2 h]
  rfl

theorem length_listCopy [Inhabited α] (src dst : List α) :
    (listCopy src dst).length = dst.length := by
  simp [listCopy]

theorem lget_listCopy [Inhabited α] (src dst : List α) (i : Nat) :
    lget (listCopy src dst) i =
      if i < dst.length then (if i < src.length then lget src i else lget dst i)
      else default := by
  rcases Nat.lt_or_ge i dst.length with h | h
  · unfold listCopy lget
    rw [List.get?_eq_getElem?, List.getElem?_map, List.getElem?_range h]
    simp [lget, h]
  · rw [lget_oob _ _ (by simpa [length_listCopy] using h)]
    simp [Nat.not_lt.2 h]

theorem mapFind_append [DecidableEq α] (m1 m2 : List (α × Nat)) (k : α) :
    mapFind (m1 ++ m2) k =
      match mapFind m1 k with
      | some v => some v
      | none => mapFind m2 k := by
  induction m1 with
  | nil => simp [mapFind]
  | cons p rest ih =>
    by_cases h : p.1 = k
    · simp [mapFind, h]
    · simpa [mapFind, h] using ih

theorem mapFind_mapInsert_self [DecidableEq α] (m : List (α × Nat)) (k : α) (v : Nat) :
    mapFind (mapInsert m k v) k = some v := by
  induction m with
  | nil => simp [mapInsert, mapFind]
  | cons p rest ih =>
    by_cases h : p.1 = k
    · simp [mapInsert, mapFind, h]
    · simpa [mapInsert, mapFind, h] using ih

theorem mapFind_mapInsert_ne [DecidableEq α] (m : List (α × Nat)) (k k' : α) (v : Nat)
    (h : k' ≠ k) : mapFind (mapInsert m k v) k' = mapFind m k' := by
  induction m with
  | nil => simp [mapInsert, mapFind, Ne.symm h]
  | cons p rest ih =>
    by_cases hp : p.1 = k
    · subst hp
      simp [mapInsert, mapFind, Ne.symm h]
    · simp [mapInsert, mapFind, hp, ih]

theorem mapFind_mapDelete_self [DecidableEq α] (m : List (α × Nat)) (k : α) :
    mapFind (mapDelete m k) k = none := by
  induction m with
  | nil => simp [mapDelete, mapFind]
  | cons p rest ih =>
    by_cases h : p.1 = k
    · simpa [mapDelete, h] using ih
    · simpa [mapDelete, mapFind, h] using ih

theorem mapFind_mapDelete_ne [DecidableEq α] (m : List (α × Nat)) (k k' : α) (h : k' ≠ k) :
    mapFind (mapDelete m k) k' = mapFind m k' := by
  induction m with
  | nil => simp [mapDelete]
  | cons p rest ih =>
    by_cases hp : p.1 = k
    · subst hp
      simpa [mapDelete, mapFind, Ne.symm h] using ih
    · simp [mapDelete, mapFind, hp, ih]

theorem mapInsert_of_absent [DecidableEq α] (m : List (α × Nat)) (k : α) (v : Nat)
    (h : mapFind m k = none) : mapInsert m k v = m ++ [(k, v)] := by
  induction m with
  | nil => simp [mapInsert]
  | cons p rest ih =>
    by_cases hp : p.1 = k
    · simp [mapFind, hp] at h
    · simp [mapFind, hp] at h
      simp [mapInsert, hp, ih h]

theorem mapFind_eq_none_iff [DecidableEq α] (m : List (α × Nat)) (k : α) :
    mapFind m k = none ↔ ∀ p ∈ m, p.1 ≠ k := by
  induction m with
  | nil => simp [mapFind]
  | cons p rest ih =>
    by_cases hp : p.1 = k
    · simp [mapFind, hp]
    · simp [mapFind, hp, ih]

theorem length_mapInsert [DecidableEq α] (m : List (α × Nat)) (k : α) (v : Nat) :
    (mapInsert m k v).length =
      if (mapFind m k).isSome then m.length else m.length + 1 := by
  induction m with
  | nil => simp [mapInsert, mapFind]
  | cons p rest ih =>
    by_cases hp : p.1 = k
    · simp [mapInsert, mapFind, hp]
    · by_cases hf : (mapFind rest k).isSome <;>
        simp [mapInsert, mapFind, hp, hf] at ih ⊢ <;> omega

theorem u32_toNat (n : Int) (h0 : 0 ≤ n) (h : n < 2 ^ 32) : (u32 n : Int) = n := by
  unfold u32
  rw [Int.emod_eq_of_lt h0 h]
  exact Int.toNat_of_nonneg h0

theorem u32_natCast (j : Nat) (h : j < 2 ^ 32) : u32 (j : Int) = j := by
  have := u32_toNat (j : Int) (by positivity) (by exact_mod_cast h)
  exact_mod_cast this

theorem u32_lt (n : Int) : u32 n < 2 ^ 32 := by
  unfold u32
  have h1 : n % (2 ^ 32 : Int) < 2 ^ 32 := Int.emod_lt_of_pos n (by norm_num)
  omega

/-! ### Preservation lemmas for `moveToFront` (both caches): the
reordering writes touch only `prev`/`next` fields, so lengths, payloads
and all non-buffer fields are unchanged. -/

theorem linkEq_refl (a : List (cacheEntry K V)) : LinkEq a a :=
  ⟨rfl, fun _ => ⟨rfl, rfl⟩⟩

theorem linkEq_trans {a b c : List (cacheEntry K V)} (h1 : LinkEq a b) (h2 : LinkEq b c) :
    LinkEq a c :=
  ⟨h1.1.trans h2.1, fun i =>
    ⟨(h1.2 i).1.trans (h2.2 i).1, (h1.2 i).2.trans (h2.2 i).2⟩⟩

theorem linkEq_lset (l : List (cacheEntry K V)) (j : Nat) (e : cacheEntry K V)
    (hk : e.key = (lget l j).key) (hv : e.value = (lget l j).value) :
    LinkEq l (lset l j e) := by
  refine ⟨(length_lset l j e).symm, fun i => ?_⟩
  by_cases h : i = j ∧ j < l.length
  · rcases h with ⟨h1, h2⟩
    subst h1
    rw [lget_lset_self _ _ _ h2]
    exact ⟨hk.symm, hv.symm⟩
  · rw [lget_lset, if_neg h]
    exact ⟨rfl, rfl⟩

theorem length_setNextF (l : List (cacheEntry K V)) (j n : Nat) :
    (setNextF l j n).length = l.length := length_lset _ _ _

theorem length_setPrevF (l : List (cacheEntry K V)) (j p : Nat) :
    (setPrevF l j p).length = l.length := length_lset _ _ _

theorem length_setLinksF (l : List (cacheEntry K V)) (j p n : Nat) :
    (setLinksF l j p n).length = l.length := length_lset _ _ _

theorem lget_setNextF (l : List (cacheEntry K V)) (j n i : Nat) :
    lget (setNextF l j n) i =
      if i = j ∧ j < l.length then { lget l j with next := n } else lget l i := by
  unfold setNextF
  rw [lget_lset]

theorem lget_setPrevF (l : List (cacheEntry K V)) (j p i : Nat) :
    lget (setPrevF l j p) i =
      if i = j ∧ j < l.length then { lget l j with prev := p } else lget l i := by
  unfold setPrevF
  rw [lget_lset]

theorem lget_setLinksF (l : List (cacheEntry K V)) (j p n i : Nat) :
    lget (setLinksF l j p n) i =
      if i = j ∧ j < l.length then { lget l j with prev := p, next := n } else lget l i := by
  unfold setLinksF
  rw [lget_lset]

theorem next_setPrevF (l : List (cacheEntry K V)) (j p i : Nat) :
    (lget (setPrevF l j p) i).next = (lget l i).next := by
  rw [lget_setPrevF]
  split
  · rename_i hc
    rw [hc.1]
  · rfl

theorem linkEq_setNextF (l : List (cacheEntry K V)) (j n : Nat) :
    LinkEq l (setNextF l j n) := linkEq_lset _ _ _ rfl rfl

theorem linkEq_setPrevF (l : List (cacheEntry K V)) (j p : Nat) :
    LinkEq l (setPrevF l j p) := linkEq_lset _ _ _ rfl rfl

theorem linkEq_setLinksF (l : List (cacheEntry K V)) (j p n : Nat) :
    LinkEq l (setLinksF l j p n) := linkEq_lset _ _ _ rfl rfl

theorem moveToFront_linkEq (lru : LRU K V) (e : Nat) :
    LinkEq lru.buf (moveToFront lru e).buf := by
  unfold moveToFront
  split
  · exact linkEq_refl _
  · refine linkEq_trans ?_ (linkEq_setPrevF _ _ _)
    refine linkEq_trans ?_ (linkEq_setNextF _ _ _)
    refine linkEq_trans ?_ (linkEq_setLinksF _ _ _ _)
    split
    · exact linkEq_trans (linkEq_setNextF _ _ _) (linkEq_setPrevF _ _ _)
    · exact linkEq_refl _

theorem moveToFront_length (lru : LRU K V) (e : Nat) :
    (moveToFront lru e).buf.length = lru.buf.length :=
  (moveToFront_linkEq lru e).1.symm

theorem moveToFront_keyval (lru : LRU K V) (e i : Nat) :
    (lget (moveToFront lru e).buf i).key = (lget lru.buf i).key ∧
    (lget (moveToFront lru e).buf i).value = (lget lru.buf i).value :=
  ⟨((moveToFront_linkEq lru e).2 i).1.symm, ((moveToFront_linkEq lru e).2 i).2.symm⟩

theorem moveToFront_size (lru : LRU K V) (e : Nat) : (moveToFront lru e).size = lru.size := by
  unfold moveToFront
  split <;> rfl

theorem moveToFront_maxSize (lru : LRU K V) (e : Nat) :
    (moveToFront lru e).maxSize = lru.maxSize := by
  unfold moveToFront
  split <;> rfl

theorem moveToFront_elements (lru : LRU K V) (e : Nat) :
    (moveToFront lru e).elements = lru.elements := by
  unfold moveToFront
  split <;> rfl

theorem root_next_after (b2 : List (cacheEntry K V)) (e nxt : Nat) (h : 0 < b2.length) :
    (lget (setPrevF (setNextF b2 0 e) nxt e) 0).next = e := by
  rw [next_setPrevF, lget_setNextF]
  simp [h]

theorem moveToFront_root_next (lru : LRU K V) (e : Nat) (h : 0 < lru.buf.length) :
    (lget (moveToFront lru e).buf 0).next = e := by
  unfold moveToFront
  split
  · assumption
  · refine root_next_after _ e _ ?_
    rw [length_setLinksF]
    split
    · rw [length_setPrevF, length_setNextF]
      exact h
    · exact h

theorem sLinkEq_refl (a : List stringElem) : SLinkEq a a := ⟨rfl, fun _ => rfl⟩

theorem sLinkEq_trans {a b c : List stringElem} (h1 : SLinkEq a b) (h2 : SLinkEq b c) :
    SLinkEq a c := ⟨h1.1.trans h2.1, fun i => (h1.2 i).trans (h2.2 i)⟩

theorem sLinkEq_lset (l : List stringElem) (j : Nat) (e : stringElem)
    (hv : e.value = (lget l j).value) : SLinkEq l (lset l j e) := by
  refine ⟨(length_lset l j e).symm, fun i => ?_⟩
  by_cases h : i = j ∧ j < l.length
  · rcases h with ⟨h1, h2⟩
    subst h1
    rw [lget_lset_self _ _ _ h2]
    exact hv.symm
  · rw [lget_lset, if_neg h]

theorem length_sSetNextF (l : List stringElem) (j n : Nat) :
    (sSetNextF l j n).length = l.length := length_lset _ _ _

theorem length_sSetPrevF (l : List stringElem) (j p : Nat) :
    (sSetPrevF l j p).length = l.length := length_lset _ _ _

theorem length_sSetLinksF (l : List stringElem) (j p n : Nat) :
    (sSetLinksF l j p n).length = l.length := length_lset _ _ _

theorem lget_sSetNextF (l : List stringElem) (j n i : Nat) :
    lget (sSetNextF l j n) i =
      if i = j ∧ j < l.length then { lget l j with next := n } else lget l i := by
  unfold sSetNextF
  rw [lget_lset]

theorem lget_sSetPrevF (l : List stringElem) (j p i : Nat) :
    lget (sSetPrevF l j p) i =
      if i = j ∧ j < l.length then { lget l j with prev := p } else lget l i := by
  unfold sSetPrevF
  rw [lget_lset]

theorem lget_sSetLinksF (l : List stringElem) (j p n i : Nat) :
    lget (sSetLinksF l j p n) i =
      if i = j ∧ j < l.length then { lget l j with prev := p, next := n } else lget l i := by
  unfold sSetLinksF
  rw [lget_lset]

theorem next_sSetPrevF (l : List stringElem) (j p i : Nat) :
    (lget (sSetPrevF l j p) i).next = (lget l i).next := by
  rw [lget_sSetPrevF]
  split
  · rename_i hc
    rw [hc.1]
  · rfl

theorem sLinkEq_sSetNextF (l : List stringElem) (j n : Nat) :
    SLinkEq l (sSetNextF l j n) := sLinkEq_lset _ _ _ rfl

theorem sLinkEq_sSetPrevF (l : List stringElem) (j p : Nat) :
    SLinkEq l (sSetPrevF l j p) := sLinkEq_lset _ _ _ rfl

theorem sLinkEq_sSetLinksF (l : List stringElem) (j p n : Nat) :
    SLinkEq l (sSetLinksF l j p n) := sLinkEq_lset _ _ _ rfl

theorem scMoveToFront_sLinkEq (sc : StringCache) (e : Nat) :
    SLinkEq sc.buf (scMoveToFront sc e).buf := by
  unfold scMoveToFront
  split
  · exact sLinkEq_refl _
  · refine sLinkEq_trans ?_ (sLinkEq_sSetPrevF _ _ _)
    refine sLinkEq_trans ?_ (sLinkEq_sSetNextF _ _ _)
    refine sLinkEq_trans ?_ (sLinkEq_sSetLinksF _ _ _ _)
    split
    · exact sLinkEq_trans (sLinkEq_sSetNextF _ _ _) (sLinkEq_sSetPrevF _ _ _)
    · exact sLinkEq_refl _

theorem scMoveToFront_length (sc : StringCache) (e : Nat) :
    (scMoveToFront sc e).buf.length = sc.buf.length :=
  (scMoveToFront_sLinkEq sc e).1.symm

theorem scMoveToFront_value (sc : StringCache) (e i : Nat) :
    (lget (scMoveToFront sc e).buf i).value = (lget sc.buf i).value :=
  ((scMoveToFront_sLinkEq sc e).2 i).symm

theorem scMoveToFront_size (sc : StringCache) (e : Nat) :
    (scMoveToFront sc e).size = sc.size := by
  unfold scMoveToFront
  split <;> rfl

theorem scMoveToFront_maxSize (sc : StringCache) (e : Nat) :
    (scMoveToFront sc e).maxSize = sc.maxSize := by
  unfold scMoveToFront
  split <;> rfl

theorem scMoveToFront_values (sc : StringCache) (e : Nat) :
    (scMoveToFront sc e).values = sc.values := by
  unfold scMoveToFront
  split <;> rfl

theorem scMoveToFront_hitCount (sc : StringCache) (e : Nat) :
    (scMoveToFront sc e).hitCount = sc.hitCount := by
  unfold scMoveToFront
  split <;> rfl

theorem scMoveToFront_missCount (sc : StringCache) (e : Nat) :
    (scMoveToFront sc e).missCount = sc.missCount := by
  unfold scMoveToFront
  split <;> rfl

theorem s_root_next_after (b2 : List stringElem) (e nxt : Nat) (h : 0 < b2.length) :
    (lget (sSetPrevF (sSetNextF b2 0 e) nxt e) 0).next = e := by
  rw [next_sSetPrevF, lget_sSetNextF]
  simp [h]

theorem scMoveToFront_root_next (sc : StringCache) (e : Nat) (h : 0 < sc.buf.length) :
    (lget (scMoveToFront sc e).buf 0).next = e := by
  unfold scMoveToFront
  split
  · assumption
  · refine s_root_next_after _ e _ ?_
    rw [length_sSetLinksF]
    split
    · rw [length_sSetPrevF, length_sSetNextF]
      exact h
    · exact h

/-! ### Structural lemmas for `realloc` and `Prealloc` -/

theorem lruRealloc_size (lru : LRU K V) : (lruRealloc lru).size = lru.size := rfl

theorem lruRealloc_maxSize (lru : LRU K V) : (lruRealloc lru).maxSize = lru.maxSize := rfl

theorem lruRealloc_elements (lru : LRU K V) : (lruRealloc lru).elements = lru.elements := rfl

theorem scRealloc_size (sc : StringCache) (n : Int) : (scRealloc sc n).size = sc.size := rfl

theorem scRealloc_maxSize (sc : StringCache) (n : Int) :
    (scRealloc sc n).maxSize = sc.maxSize := rfl

theorem scRealloc_values (sc : StringCache) (n : Int) :
    (scRealloc sc n).values = sc.values := rfl

theorem scRealloc_hitCount (sc : StringCache) (n : Int) :
    (scRealloc sc n).hitCount = sc.hitCount := rfl

theorem scRealloc_missCount (sc : StringCache) (n : Int) :
    (scRealloc sc n).missCount = sc.missCount := rfl

/-! ### Per-operation structural lemmas -/

theorem lruRealloc_length (lru : LRU K V) :
    (lruRealloc lru).buf.length = (lruGrowSize lru).toNat := by
  simp [lruRealloc, length_listCopy]

theorem lruRealloc_length_le (lru : LRU K V) (h : lru.maxSize ≤ maxLRUSize) :
    (lruRealloc lru).buf.length ≤ 2 ^ 32 := by
  rw [lruRealloc_length]
  unfold maxLRUSize at h
  unfold lruGrowSize
  split <;> omega

theorem scRealloc0_length (sc : StringCache) :
    (scRealloc sc 0).buf.length = (scGrowSize sc).toNat := by
  simp [scRealloc, length_listCopy]

theorem scRealloc_length (sc : StringCache) (n : Int) (hn : n ≠ 0) :
    (scRealloc sc n).buf.length = n.toNat := by
  simp [scRealloc, length_listCopy, hn]

theorem addHit_size (lru : LRU K V) (elem : Nat) (v : V) :
    (addHit lru elem v).size = lru.size := moveToFront_size _ _

theorem addHit_maxSize (lru : LRU K V) (elem : Nat) (v : V) :
    (addHit lru elem v).maxSize = lru.maxSize := moveToFront_maxSize _ _

theorem addHit_elements (lru : LRU K V) (elem : Nat) (v : V) :
    (addHit lru elem v).elements = lru.elements := moveToFront_elements _ _

theorem addHit_length (lru : LRU K V) (elem : Nat) (v : V) :
    (addHit lru elem v).buf.length = lru.buf.length := by
  unfold addHit
  rw [length_lset]
  exact moveToFront_length _ _

theorem addNewSlot_fst_size (lru : LRU K V) : (addNewSlot lru).1.size = lru.size + 1 := by
  unfold addNewSlot
  split
  · exact lruRealloc_size _
  · rfl

theorem addNewSlot_fst_maxSize (lru : LRU K V) :
    (addNewSlot lru).1.maxSize = lru.maxSize := by
  unfold addNewSlot
  split
  · exact lruRealloc_maxSize _
  · rfl

theorem addNewSlot_fst_elements (lru : LRU K V) :
    (addNewSlot lru).1.elements = lru.elements := by
  unfold addNewSlot
  split
  · exact lruRealloc_elements _
  · rfl

theorem addEvict_fst_size (lru : LRU K V) [DecidableEq K] :
    (addEvict lru).1.size = lru.size := rfl

theorem addEvict_fst_maxSize (lru : LRU K V) [DecidableEq K] :
    (addEvict lru).1.maxSize = lru.maxSize := rfl

theorem addFill_size (lru : LRU K V) [DecidableEq K] (k : K) (v : V) (elem : Nat) :
    (addFill lru k v elem).size = lru.size := moveToFront_size _ _

theorem addFill_maxSize (lru : LRU K V) [DecidableEq K] (k : K) (v : V) (elem : Nat) :
    (addFill lru k v elem).maxSize = lru.maxSize := moveToFront_maxSize _ _

theorem addFill_elements (lru : LRU K V) [DecidableEq K] (k : K) (v : V) (elem : Nat) :
    (addFill lru k v elem).elements = mapInsert lru.elements (some k) elem := by
  unfold addFill
  rw [moveToFront_elements]

theorem addFill_length (lru : LRU K V) [DecidableEq K] (k : K) (v : V) (elem : Nat) :
    (addFill lru k v elem).buf.length = lru.buf.length := by
  unfold addFill
  rw [moveToFront_length, length_lset]

theorem Add_size {K V : Type} [DecidableEq K] (lru : LRU K V) (k : K) (v : V)
    (lru' : LRU K V) (h : Add lru k v = some lru') :
    lru'.maxSize = lru.maxSize ∧
    (lru'.size = lru.size ∨ (lru'.size = lru.size + 1 ∧ lru.size < lru.maxSize)) := by
  unfold Add at h
  cases hf : mapFind lru.elements (some k) with
  | some elem =>
    rw [hf] at h
    simp only [Option.some.injEq] at h
    subst h
    exact ⟨addHit_maxSize _ _ _, Or.inl (addHit_size _ _ _)⟩
  | none =>
    simp only [hf] at h
    split at h
    · rename_i hlt
      unfold addMiss at h
      split at h
      · exact Option.noConfusion h
      · simp only [Option.some.injEq] at h
        subst h
        rw [addFill_maxSize, addFill_size]
        exact ⟨addNewSlot_fst_maxSize _, Or.inr ⟨addNewSlot_fst_size _, hlt⟩⟩
    · unfold addMiss at h
      split at h
      · exact Option.noConfusion h
      · simp only [Option.some.injEq] at h
        subst h
        rw [addFill_maxSize, addFill_size]
        exact ⟨addEvict_fst_maxSize _, Or.inl (addEvict_fst_size _)⟩

theorem Get_state_size {K V : Type} [DecidableEq K] (lru : LRU K V) (k : K) :
    (Get lru k).2.size = lru.size ∧ (Get lru k).2.maxSize = lru.maxSize := by
  unfold Get
  cases mapFind lru.elements (some k) with
  | some elem => exact ⟨moveToFront_size _ _, moveToFront_maxSize _ _⟩
  | none => exact ⟨rfl, rfl⟩

theorem runLOps_rec {K V : Type} [DecidableEq K] (P : LRU K V → Prop)
    (hAdd : ∀ lru (k : K) (v : V) lru', P lru → Add lru k v = some lru' → P lru')
    (hGet : ∀ lru (k : K), P lru → P (Get lru k).2) :
    ∀ (ops : List (LOp K V)) (lru lru' : LRU K V),
      P lru → runLOps lru ops = some lru' → P lru' := by
  intro ops
  induction ops with
  | nil =>
    intro lru lru' hP h
    simp only [runLOps, Option.some.injEq] at h
    exact h ▸ hP
  | cons op rest ih =>
    intro lru lru' hP h
    unfold runLOps at h
    cases hop : applyLOp lru op with
    | none => rw [hop] at h; exact absurd h (by simp)
    | some mid =>
      rw [hop] at h
      refine ih mid lru' ?_ h
      cases op with
      | add k v => exact hAdd lru k v mid hP hop
      | get k =>
        have : mid = (Get lru k).2 := by
          simpa [applyLOp] using hop.symm
        exact this ▸ hGet lru k hP
      | peek k =>
        have : mid = lru := by simpa [applyLOp] using hop.symm
        exact this ▸ hP

theorem Peek_eq_Get_fst {K V : Type} [DecidableEq K] (lru : LRU K V) (k : K) :
    Peek lru k = (Get lru k).1 := by
  unfold Peek Get
  cases mapFind lru.elements (some k) with
  | some elem => simp [(moveToFront_keyval lru elem elem).2]
  | none => rfl

theorem Get_miss_state {K V : Type} [DecidableEq K] (lru : LRU K V) (k : K)
    (h : mapFind lru.elements (some k) = none) : (Get lru k).2 = lru := by
  unfold Get
  rw [h]

theorem runLOps_filter_peek {K V : Type} [DecidableEq K] (lru : LRU K V)
    (ops : List (LOp K V)) :
    runLOps lru (ops.filter fun o => !(isPeekOp o)) = runLOps lru ops := by
  induction ops generalizing lru with
  | nil => rfl
  | cons op rest ih =>
    cases op with
    | peek k => simpa [List.filter, isPeekOp, runLOps, applyLOp] using ih lru
    | add k v =>
      simp only [List.filter, isPeekOp, Bool.not_false, runLOps, applyLOp]
      cases Add lru k v with
      | none => rfl
      | some mid => exact ih mid
    | get k =>
      simp only [List.filter, isPeekOp, Bool.not_false, runLOps, applyLOp]
      exact ih _

theorem internMiss_snd_size (step : StringCache × Nat) (v : GoStr) :
    ((internMiss step v).2).size = step.1.size := scMoveToFront_size _ _

theorem internMiss_snd_maxSize (step : StringCache × Nat) (v : GoStr) :
    ((internMiss step v).2).maxSize = step.1.maxSize := scMoveToFront_maxSize _ _

theorem Add_eq_hit {K V : Type} [DecidableEq K] (lru : LRU K V) (k : K) (v : V) (elem : Nat)
    (hf : mapFind lru.elements (some k) = some elem) :
    Add lru k v = some (addHit lru elem v) := by
  unfold Add
  rw [hf]

theorem Add_eq_miss {K V : Type} [DecidableEq K] (lru : LRU K V) (k : K) (v : V)
    (hf : mapFind lru.elements (some k) = none) :
    Add lru k v =
      addMiss (if lru.size < lru.maxSize then addNewSlot lru else addEvict lru) k v := by
  unfold Add
  rw [hf]

theorem Get_eq_hit {K V : Type} [DecidableEq K] (lru : LRU K V) (k : K) (elem : Nat)
    (hf : mapFind lru.elements (some k) = some elem) :
    Get lru k = (((lget (moveToFront lru elem).buf elem).value, true), moveToFront lru elem) := by
  unfold Get
  rw [hf]

theorem Get_eq_miss {K V : Type} [DecidableEq K] (lru : LRU K V) (k : K)
    (hf : mapFind lru.elements (some k) = none) :
    Get lru k = ((none, false), lru) := by
  unfold Get
  rw [hf]

theorem Intern_eq_hit (sc : StringCache) (v : GoStr) (elem : Nat)
    (hf : mapFind sc.values v.content = some elem) :
    Intern sc v =
      ((lget (scMoveToFront sc elem).buf elem).value,
       { scMoveToFront sc elem with hitCount := (scMoveToFront sc elem).hitCount + 1 }) := by
  unfold Intern
  rw [hf]

theorem Intern_eq_miss (sc : StringCache) (v : GoStr)
    (hf : mapFind sc.values v.content = none) :
    Intern sc v =
      internMiss
        (if sc.size < sc.maxSize then internNew { sc with missCount := sc.missCount + 1 } v
         else internEvict { sc with missCount := sc.missCount + 1 } v) v := by
  unfold Intern
  rw [hf]

theorem internNew_fst_size (sc : StringCache) (v : GoStr) :
    (internNew sc v).1.size = sc.size + 1 := by
  unfold internNew
  split <;> rfl

theorem internEvict_fst_size (sc : StringCache) (v : GoStr) :
    (internEvict sc v).1.size = sc.size := rfl

theorem Intern_size (sc : StringCache) (v : GoStr) :
    ((Intern sc v).2).size = sc.size ∨ ((Intern sc v).2).size = sc.size + 1 := by
  rcases hf : mapFind sc.values v.content with _ | elem
  · rw [Intern_eq_miss sc v hf]
    split
    · right
      rw [internMiss_snd_size, internNew_fst_size]
    · left
      rw [internMiss_snd_size, internEvict_fst_size]
  · rw [Intern_eq_hit sc v elem hf]
    exact Or.inl (scMoveToFront_size _ _)

theorem applySOp_size (sc : StringCache) (op : SOp) :
    (applySOp sc op).size = sc.size ∨ (applySOp sc op).size = sc.size + 1 := by
  cases op with
  | intern v => exact Intern_size sc v
  | contains _ => exact Or.inl rfl
  | validate => exact Or.inl rfl
  | prealloc => exact Or.inl (scRealloc_size _ _)

theorem runSOps_size_mono (ops : List SOp) (sc : StringCache) :
    sc.size ≤ (runSOps sc ops).size := by
  induction ops generalizing sc with
  | nil => exact le_refl _
  | cons op rest ih =>
    have h1 : sc.size ≤ (applySOp sc op).size := by
      rcases applySOp_size sc op with h | h <;> omega
    exact le_trans h1 (ih (applySOp sc op))

theorem u32_natCast_le (j : Nat) : u32 (j : Int) ≤ j := by
  unfold u32
  have h0 : (0 : Int) ≤ (j : Int) % (2 ^ 32 : Int) :=
    Int.emod_nonneg _ (by norm_num)
  have h1 : (j : Int) % (2 ^ 32 : Int) ≤ (j : Int) := by
    rcases Int.le_or_lt (2 ^ 32 : Int) (j : Int) with hc | hc
    · have := Int.emod_lt_of_pos (j : Int) (show (0 : Int) < 2 ^ 32 by norm_num)
      omega
    · rw [Int.emod_eq_of_lt (by positivity) hc]
  omega

theorem addMiss_some {K V : Type} [DecidableEq K] (step : LRU K V × Nat) (k : K) (v : V)
    (lru1 : LRU K V) (h : addMiss step k v = some lru1) :
    lru1 = addFill step.1 k v step.2 ∧ step.2 < step.1.buf.length := by
  unfold addMiss at h
  split at h
  · exact Option.noConfusion h
  · rename_i hpanic
    simp only [Option.some.injEq] at h
    have hle := u32_natCast_le step.1.buf.length
    exact ⟨h.symm, by omega⟩

theorem Add_finds_key {K V : Type} [DecidableEq K] (lru : LRU K V) (k : K) (v : V)
    (lru1 : LRU K V)
    (hin : ∀ e, mapFind lru.elements (some k) = some e → e < lru.buf.length)
    (h : Add lru k v = some lru1) :
    ∃ e, mapFind lru1.elements (some k) = some e ∧ e < lru1.buf.length := by
  rcases hf : mapFind lru.elements (some k) with _ | elem
  · rw [Add_eq_miss lru k v hf] at h
    rcases addMiss_some _ _ _ _ h with ⟨hq, hlt⟩
    subst hq
    refine ⟨(if lru.size < lru.maxSize then addNewSlot lru else addEvict lru).2, ?_, ?_⟩
    · rw [addFill_elements]
      exact mapFind_mapInsert_self _ _ _
    · rw [addFill_length]
      exact hlt
  · rw [Add_eq_hit lru k v elem hf] at h
    simp only [Option.some.injEq] at h
    subst h
    refine ⟨elem, ?_, ?_⟩
    · rw [addHit_elements]
      exact hf
    · rw [addHit_length]
      exact hin elem hf

theorem lget_scRealloc (sc : StringCache) (n : Int) (i : Nat) (hi : i < sc.buf.length)
    (hd : i < (scRealloc sc n).buf.length) : lget (scRealloc sc n).buf i = lget sc.buf i := by
  unfold scRealloc at hd ⊢
  rw [length_listCopy] at hd
  rw [lget_listCopy, if_pos hd, if_pos hi]

theorem lget_lruRealloc (lru : LRU K V) (i : Nat) (hi : i < lru.buf.length)
    (hd : i < (lruRealloc lru).buf.length) : lget (lruRealloc lru).buf i = lget lru.buf i := by
  unfold lruRealloc at hd ⊢
  rw [length_listCopy] at hd
  rw [lget_listCopy, if_pos hd, if_pos hi]

theorem scSetValue_value (sc : StringCache) (e : Nat) (v : GoStr) (he : e < sc.buf.length) :
    (lget (scSetValue sc e v).buf e).value = v := by
  unfold scSetValue
  rw [lget_lset_self _ _ _ he]

theorem scSetValue_length (sc : StringCache) (e : Nat) (v : GoStr) :
    (scSetValue sc e v).buf.length = sc.buf.length := length_lset _ _ _

theorem internMiss_fst (st : StringCache × Nat) (v : GoStr) : (internMiss st v).1 = v := rfl

theorem internMiss_snd_buf (st : StringCache × Nat) (v : GoStr) :
    ((internMiss st v).2).buf = (scMoveToFront st.1 st.2).buf := rfl

theorem internMiss_snd_values (st : StringCache × Nat) (v : GoStr) :
    ((internMiss st v).2).values = mapInsert st.1.values v.content st.2 := by
  unfold internMiss
  rw [scMoveToFront_values]

theorem internMiss_snd_hitCount (st : StringCache × Nat) (v : GoStr) :
    ((internMiss st v).2).hitCount = st.1.hitCount := scMoveToFront_hitCount _ _

theorem internMiss_snd_missCount (st : StringCache × Nat) (v : GoStr) :
    ((internMiss st v).2).missCount = st.1.missCount := scMoveToFront_missCount _ _

theorem internNew_fst_hitCount (sc : StringCache) (v : GoStr) :
    (internNew sc v).1.hitCount = sc.hitCount := by
  unfold internNew
  split <;> rfl

theorem internNew_fst_missCount (sc : StringCache) (v : GoStr) :
    (internNew sc v).1.missCount = sc.missCount := by
  unfold internNew
  split <;> rfl

theorem internEvict_fst_hitCount (sc : StringCache) (v : GoStr) :
    (internEvict sc v).1.hitCount = sc.hitCount := rfl

theorem internEvict_fst_missCount (sc : StringCache) (v : GoStr) :
    (internEvict sc v).1.missCount = sc.missCount := rfl

theorem internNew_stores (sc : StringCache) (v : GoStr)
    (h0 : 0 ≤ sc.size) (hsz : sc.size + 1 < 2 ^ 32)
    (hlen : sc.size < (sc.buf.length : Int)) (h2 : 2 ≤ sc.buf.length)
    (hcap : sc.size + 1 ≤ sc.maxSize) :
    (lget (internNew sc v).1.buf (internNew sc v).2).value = v := by
  have he : ((u32 (sc.size + 1)) : Int) = sc.size + 1 := u32_toNat _ (by omega) (by omega)
  unfold internNew
  refine scSetValue_value _ _ _ ?_
  split
  · rw [scRealloc0_length]
    unfold scGrowSize
    dsimp only
    split <;> omega
  · rename_i hng
    dsimp only at hng ⊢
    omega

theorem internEvict_stores (sc : StringCache) (v : GoStr)
    (hrp : (lget sc.buf 0).prev < sc.buf.length) :
    (lget (internEvict sc v).1.buf (internEvict sc v).2).value = v := by
  unfold internEvict
  exact scSetValue_value _ _ _ hrp

theorem intern_miss_stores (sc : StringCache) (s : GoStr)
    (hf : mapFind sc.values s.content = none)
    (h0 : 0 ≤ sc.size) (hlen : sc.size < (sc.buf.length : Int)) (h2 : 2 ≤ sc.buf.length)
    (hms : sc.maxSize < 2 ^ 32) (hrp : (lget sc.buf 0).prev < sc.buf.length) :
    ∃ e, mapFind ((Intern sc s).2).values s.content = some e ∧
      (lget ((Intern sc s).2).buf e).value = s := by
  rw [Intern_eq_miss sc s hf]
  split
  · rename_i hlt
    refine ⟨(internNew { sc with missCount := sc.missCount + 1 } s).2, ?_, ?_⟩
    · rw [internMiss_snd_values]
      exact mapFind_mapInsert_self _ _ _
    · rw [internMiss_snd_buf, scMoveToFront_value]
      exact internNew_stores _ _ h0 (by dsimp only; omega) hlen h2 (by dsimp only; omega)
  · refine ⟨(internEvict { sc with missCount := sc.missCount + 1 } s).2, ?_, ?_⟩
    · rw [internMiss_snd_values]
      exact mapFind_mapInsert_self _ _ _
    · rw [internMiss_snd_buf, scMoveToFront_value]
      exact internEvict_stores _ _ hrp

theorem moveToFront_fresh (lru : LRU K V) (e : Nat)
    (hz : (lget lru.buf 0).next ≠ e)
    (hp : (lget lru.buf e).prev = 0)
    (hne0 : e ≠ 0)
    (he : e < lru.buf.length)
    (hnxtlt : (lget lru.buf 0).next < lru.buf.length) :
    ∀ i, lget (moveToFront lru e).buf i =
      if i = e then { lget lru.buf e with prev := 0, next := (lget lru.buf 0).next }
      else if i = 0 then
        (if (lget lru.buf 0).next = 0 then { lget lru.buf 0 with prev := e, next := e }
         else { lget lru.buf 0 with next := e })
      else if i = (lget lru.buf 0).next then { lget lru.buf i with prev := e }
      else lget lru.buf i := by
  intro i
  have h0 : 0 < lru.buf.length := by omega
  have hmain : (moveToFront lru e).buf =
      setPrevF (setNextF (setLinksF lru.buf e 0 ((lget lru.buf 0).next)) 0 e)
        ((lget lru.buf 0).next) e := by
    unfold moveToFront
    rw [if_neg hz, if_neg (by simp [hp])]
  rw [hmain]
  set nxt := (lget lru.buf 0).next with hnxtdef
  set b2 := setLinksF lru.buf e 0 nxt with hb2
  set b3 := setNextF b2 0 e with hb3
  have hlen2 : b2.length = lru.buf.length := length_setLinksF _ _ _ _
  have hlen3 : b3.length = lru.buf.length := by
    rw [hb3, length_setNextF, hlen2]
  have hg2 : ∀ j, lget b2 j =
      if j = e then { lget lru.buf e with prev := 0, next := nxt } else lget lru.buf j := by
    intro j
    by_cases hj : j = e
    · subst hj
      rw [hb2, lget_setLinksF, if_pos ⟨rfl, he⟩, if_pos rfl]
    · rw [hb2, lget_setLinksF, if_neg (fun hc => hj hc.1), if_neg hj]
  have hg3 : ∀ j, lget b3 j =
      if j = 0 then { lget lru.buf 0 with next := e } else lget b2 j := by
    intro j
    by_cases hj : j = 0
    · subst hj
      rw [hb3, lget_setNextF, if_pos ⟨rfl, by omega⟩, if_pos rfl]
      rw [hg2 0, if_neg (Ne.symm hne0)]
    · rw [hb3, lget_setNextF, if_neg (fun hc => hj hc.1), if_neg hj]
  rw [lget_setPrevF]
  by_cases hie : i = e
  · subst hie
    rw [if_neg (fun hc => hz hc.1.symm)]
    rw [hg3, if_neg hne0, hg2, if_pos rfl, if_pos rfl]
  · rw [if_neg hie]
    by_cases hi0 : i = 0
    · subst hi0
      rw [if_pos rfl]
      by_cases hn0 : nxt = 0
      · rw [if_pos hn0]
        rw [if_pos ⟨hn0.symm, by omega⟩]
        rw [hn0, hg3, if_pos rfl]
      · rw [if_neg hn0]
        rw [if_neg (fun hc => hn0 hc.1.symm)]
        rw [hg3, if_pos rfl]
    · rw [if_neg hi0]
      by_cases hin : i = nxt
      · rw [if_pos hin]
        rw [if_pos ⟨hin, by omega⟩]
        rw [← hin, hg3, if_neg hi0, hg2, if_neg hie]
      · rw [if_neg hin, if_neg (fun hc => hin hc.1)]
        rw [hg3, if_neg hi0, hg2, if_neg hie]



theorem moveToFront_last (lru : LRU K V) (e : Nat)
    (hz : (lget lru.buf 0).next ≠ e)
    (hpne0 : (lget lru.buf e).prev ≠ 0)
    (hnext0 : (lget lru.buf e).next = 0)
    (hne0 : e ≠ 0)
    (he : e < lru.buf.length)
    (hpe : (lget lru.buf e).prev ≠ e)
    (hplt : (lget lru.buf e).prev < lru.buf.length)
    (hnxtne0 : (lget lru.buf 0).next ≠ 0)
    (hnxtlt : (lget lru.buf 0).next < lru.buf.length) :
    ∀ i, lget (moveToFront lru e).buf i =
      if i = e then { lget lru.buf e with prev := 0, next := (lget lru.buf 0).next }
      else if i = 0 then
        { lget lru.buf 0 with prev := (lget lru.buf e).prev, next := e }
      else if i = (lget lru.buf 0).next then
        (if (lget lru.buf 0).next = (lget lru.buf e).prev then
          { lget lru.buf i with next := 0, prev := e }
         else { lget lru.buf i with prev := e })
      else if i = (lget lru.buf e).prev then { lget lru.buf i with next := 0 }
      else lget lru.buf i := by
  intro i
  have h0 : 0 < lru.buf.length := by omega
  have hmain : (moveToFront lru e).buf =
      setPrevF (setNextF (setLinksF
        (setPrevF (setNextF lru.buf ((lget lru.buf e).prev) ((lget lru.buf e).next))
          ((lget (setNextF lru.buf ((lget lru.buf e).prev) ((lget lru.buf e).next)) e).next)
          ((lget (setNextF lru.buf ((lget lru.buf e).prev) ((lget lru.buf e).next)) e).prev))
        e 0
        ((lget (setPrevF (setNextF lru.buf ((lget lru.buf e).prev) ((lget lru.buf e).next))
          ((lget (setNextF lru.buf ((lget lru.buf e).prev) ((lget lru.buf e).next)) e).next)
          ((lget (setNextF lru.buf ((lget lru.buf e).prev) ((lget lru.buf e).next)) e).prev))
          0).next)) 0 e)
        ((lget (setPrevF (setNextF lru.buf ((lget lru.buf e).prev) ((lget lru.buf e).next))
          ((lget (setNextF lru.buf ((lget lru.buf e).prev) ((lget lru.buf e).next)) e).next)
          ((lget (setNextF lru.buf ((lget lru.buf e).prev) ((lget lru.buf e).next)) e).prev))
          0).next) e := by
    unfold moveToFront
    rw [if_neg hz, if_pos hpne0]
  set BU := setNextF lru.buf ((lget lru.buf e).prev) ((lget lru.buf e).next) with hBUdef
  set B1 := setPrevF BU ((lget BU e).next) ((lget BU e).prev) with hB1def
  set p := (lget lru.buf e).prev with hpdef
  set hd := (lget lru.buf 0).next with hddef
  have hlenBU : BU.length = lru.buf.length := length_setNextF _ _ _
  have hBU : ∀ j, lget BU j =
      if j = p then { lget lru.buf p with next := 0 } else lget lru.buf j := by
    intro j
    by_cases hj : j = p
    · subst hj
      rw [hBUdef, lget_setNextF, if_pos ⟨rfl, hplt⟩, hnext0, if_pos rfl]
    · rw [hBUdef, lget_setNextF, if_neg (fun hc => hj hc.1), if_neg hj]
  have hBUe : lget BU e = lget lru.buf e := by
    rw [hBU, if_neg (Ne.symm hpe)]
  have hlenB1 : B1.length = lru.buf.length := by
    rw [hB1def, length_setPrevF, hlenBU]
  have hB1 : ∀ j, lget B1 j =
      if j = 0 then { lget lru.buf 0 with prev := p }
      else if j = p then { lget lru.buf p with next := 0 }
      else lget lru.buf j := by
    intro j
    by_cases hj : j = 0
    · subst hj
      rw [hB1def, hBUe, hnext0, ← hpdef, lget_setPrevF, if_pos ⟨rfl, by omega⟩]
      rw [hBU, if_neg (Ne.symm hpne0), if_pos rfl]
    · rw [hB1def, hBUe, hnext0, ← hpdef, lget_setPrevF, if_neg (fun hc => hj hc.1), hBU]
      rw [if_neg hj]
  have hroot1 : (lget B1 0).next = hd := by
    rw [hB1, if_pos rfl]
  rw [hroot1] at hmain
  rw [hmain]
  have hlen2 : (setLinksF B1 e 0 hd).length = lru.buf.length := by
    rw [length_setLinksF, hlenB1]
  have hg2 : ∀ j, lget (setLinksF B1 e 0 hd) j =
      if j = e then { lget lru.buf e with prev := 0, next := hd } else lget B1 j := by
    intro j
    by_cases hj : j = e
    · subst hj
      rw [lget_setLinksF, if_pos ⟨rfl, by omega⟩, if_pos rfl]
      rw [hB1, if_neg hne0, if_neg (Ne.symm hpe)]
    · rw [lget_setLinksF, if_neg (fun hc => hj hc.1), if_neg hj]
  have hlen3 : (setNextF (setLinksF B1 e 0 hd) 0 e).length = lru.buf.length := by
    rw [length_setNextF, hlen2]
  have hg3 : ∀ j, lget (setNextF (setLinksF B1 e 0 hd) 0 e) j =
      if j = 0 then { lget lru.buf 0 with prev := p, next := e }
      else lget (setLinksF B1 e 0 hd) j := by
    intro j
    by_cases hj : j = 0
    · subst hj
      rw [lget_setNextF, if_pos ⟨rfl, by omega⟩, if_pos rfl]
      rw [hg2, if_neg (Ne.symm hne0), hB1, if_pos rfl]
    · rw [lget_setNextF, if_neg (fun hc => hj hc.1), if_neg hj]
  rw [lget_setPrevF]
  by_cases hie : i = e
  · subst hie
    rw [if_neg (fun hc => hz hc.1.symm)]
    rw [hg3, if_neg hne0, hg2, if_pos rfl, if_pos rfl]
  · rw [if_neg hie]
    by_cases hi0 : i = 0
    · subst hi0
      rw [if_neg (fun hc => hnxtne0 hc.1.symm), if_pos rfl]
      rw [hg3, if_pos rfl]
    · rw [if_neg hi0]
      by_cases hin : i = hd
      · rw [if_pos ⟨hin, by omega⟩, if_pos hin]
        by_cases hhp : hd = p
        · rw [if_pos hhp]
          rw [hg3, if_neg hnxtne0, hg2, if_neg hz, hB1, if_neg hnxtne0, if_pos hhp]
          rw [hin, hhp]
        · rw [if_neg hhp]
          rw [hg3, if_neg hnxtne0, hg2, if_neg hz, hB1, if_neg hnxtne0, if_neg hhp]
          rw [hin]
      · rw [if_neg (fun hc => hin hc.1), if_neg hin]
        by_cases hip : i = p
        · rw [if_pos hip]
          rw [hg3, if_neg hi0, hg2, if_neg hie, hB1, if_neg hi0, if_pos hip, hip]
        · rw [if_neg hip]
          rw [hg3, if_neg hi0, hg2, if_neg hie, hB1, if_neg hi0, if_neg hip]

theorem mapFind_fillMap_none [DecidableEq α] (f : Nat → α) (j : Nat) (k : α)
    (h : ∀ i, 1 ≤ i → i ≤ j → f i ≠ k) : mapFind (fillMap f j) k = none := by
  induction j with
  | zero => rfl
  | succ n ih =>
    show mapFind (fillMap f n ++ [(f (n + 1), n + 1)]) k = none
    rw [mapFind_append, ih (fun i h1 h2 => h i h1 (by omega))]
    simp [mapFind, h (n + 1) (by omega) (le_refl _)]

theorem mapFind_fillMap_found [DecidableEq α] (f : Nat → α) (j t : Nat)
    (h1 : 1 ≤ t) (h2 : t ≤ j) (hfr : ∀ i, 1 ≤ i → i < t → f i ≠ f t) :
    mapFind (fillMap f j) (f t) = some t := by
  induction j with
  | zero => omega
  | succ n ih =>
    show mapFind (fillMap f n ++ [(f (n + 1), n + 1)]) (f t) = some t
    rw [mapFind_append]
    rcases Nat.lt_or_ge t (n + 1) with hc | hc
    · rw [ih (by omega)]
    · have ht : t = n + 1 := by omega
      subst ht
      rw [mapFind_fillMap_none f n (f (n + 1)) (fun i hi1 hi2 => hfr i hi1 (by omega))]
      simp [mapFind]

theorem runLOps_append {K V : Type} [DecidableEq K] (lru : LRU K V)
    (a b : List (LOp K V)) :
    runLOps lru (a ++ b) =
      match runLOps lru a with
      | none => none
      | some m => runLOps m b := by
  induction a generalizing lru with
  | nil => rfl
  | cons op rest ih =>
    show runLOps lru (op :: (rest ++ b)) = _
    cases hop : applyLOp lru op with
    | none => simp [runLOps, hop]
    | some mid => simp [runLOps, hop, ih mid]

theorem lget_lruRealloc_oob (lru : LRU K V) (i : Nat) (hi : lru.buf.length ≤ i) :
    lget (lruRealloc lru).buf i = default := by
  unfold lruRealloc
  rw [lget_listCopy]
  split
  · rw [if_neg (by omega)]
    exact lget_replicate _ _
  · rfl

theorem lruRealloc_ge (lru : LRU K V) (h2 : 2 ≤ lru.buf.length)
    (hle : (lru.buf.length : Int) ≤ lru.maxSize + 1) :
    lru.buf.length ≤ (lruRealloc lru).buf.length := by
  rw [lruRealloc_length]
  unfold lruGrowSize
  split <;> omega

theorem lget_addNewSlot (lru : LRU K V) (i : Nat)
    (h2 : 2 ≤ lru.buf.length) (hle : (lru.buf.length : Int) ≤ lru.maxSize + 1) :
    lget (addNewSlot lru).1.buf i = lget lru.buf i := by
  unfold addNewSlot
  show lget (if lru.size + 1 ≥ ((lru.buf.length : Int)) then lruRealloc { lru with size := lru.size + 1 } else { lru with size := lru.size + 1 }).buf i = lget lru.buf i
  split
  · have hgrow : lru.buf.length ≤ (lruRealloc { lru with size := lru.size + 1 }).buf.length :=
      lruRealloc_ge { lru with size := lru.size + 1 } h2 hle
    rcases Nat.lt_or_ge i lru.buf.length with hi | hi
    · exact lget_lruRealloc _ i hi (by omega)
    · rw [lget_oob _ _ hi, lget_lruRealloc_oob { lru with size := lru.size + 1 } i hi]
  · rfl

theorem u32_natCast_mod (n : Nat) : u32 (n : Int) = n % 2 ^ 32 := by
  unfold u32
  omega

theorem addMiss_some_full {K V : Type} [DecidableEq K] (step : LRU K V × Nat) (k : K) (v : V)
    (lru1 : LRU K V) (h : addMiss step k v = some lru1) :
    lru1 = addFill step.1 k v step.2 ∧ step.2 < u32 (step.1.buf.length : Int) := by
  unfold addMiss at h
  split at h
  · exact Option.noConfusion h
  · rename_i hpanic
    simp only [Option.some.injEq] at h
    exact ⟨h.symm, by omega⟩


theorem fillDesc_new {K V : Type} [DecidableEq K] (ks : Nat → K) (vs : Nat → V)
    (N : Nat) (hN : 1 ≤ N) (lru0 : LRU K V)
    (h : New K V (N : Int) = some lru0) : FillDesc ks vs (N : Int) 0 lru0 := by
  unfold New at h
  split at h
  · exact Option.noConfusion h
  · rename_i hc
    simp only [maxLRUSize] at hc
    simp only [Option.some.injEq] at h
    subst h
    have hN' : (1 : Int) ≤ ((N : Nat) : Int) := by exact_mod_cast hN
    set B : Int := if ((N : Nat) : Int) + 1 > 100 then 101 else ((N : Nat) : Int) + 1 with hBdef
    have hB1 : 2 ≤ B.toNat := by
      rw [hBdef]
      split <;> omega
    have hB3 : (B.toNat : Int) ≤ ((N : Nat) : Int) + 1 := by
      rw [hBdef]
      split <;> omega
    have hB4 : B.toNat ≤ 101 := by
      rw [hBdef]
      split <;> omega
    refine ⟨rfl, rfl, ?_, ?_, ?_, ?_, ?_, ?_, ?_, rfl⟩
    · show 2 ≤ (List.replicate B.toNat (default : cacheEntry K V)).length
      rw [List.length_replicate]
      exact hB1
    · show (((0 : Nat) : Int)) < ((List.replicate B.toNat (default : cacheEntry K V)).length : Int)
      rw [List.length_replicate]
      omega
    · show ((List.replicate B.toNat (default : cacheEntry K V)).length : Int) ≤ ((N : Nat) : Int) + 1
      rw [List.length_replicate]
      exact hB3
    · show (List.replicate B.toNat (default : cacheEntry K V)).length < 2 ^ 32
      rw [List.length_replicate]
      omega
    · show lget (List.replicate B.toNat (default : cacheEntry K V)) 0 =
        ⟨(if (0 : Nat) = 0 then 0 else 1), 0, none, none⟩
      rw [lget_replicate]
      rfl
    · intro i h1 h2
      exact absurd (h1.trans h2) (by omega)
    · intro i hi
      show lget (List.replicate B.toNat (default : cacheEntry K V)) i = default
      exact lget_replicate _ _

theorem fillDesc_step {K V : Type} [DecidableEq K] (ks : Nat → K) (vs : Nat → V)
    (N j : Nat) (hNmax : (N : Int) ≤ maxLRUSize)
    (hfresh : ∀ i, 1 ≤ i → i ≤ j → ks i ≠ ks (j + 1))
    (hjN : j + 1 ≤ N) (lru lru' : LRU K V)
    (hd : FillDesc ks vs (N : Int) j lru)
    (h : Add lru (ks (j + 1)) (vs (j + 1)) = some lru') :
    FillDesc ks vs (N : Int) (j + 1) lru' := by
  obtain ⟨hsz, hms, h2, hjlen, hlenN, hlen32, hroot, hmid, hhigh, hmap⟩ := hd
  unfold maxLRUSize at hNmax
  have hfind : mapFind lru.elements (some (ks (j + 1))) = none := by
    rw [hmap]
    exact mapFind_fillMap_none _ _ _
      (fun i h1 h2' hc => hfresh i h1 h2' (Option.some.inj hc))
  rw [Add_eq_miss _ _ _ hfind, if_pos (by rw [hsz, hms]; omega)] at h
  rcases addMiss_some_full _ _ _ _ h with ⟨hq, hraw⟩
  subst hq
  have hu : (addNewSlot lru).2 = j + 1 := by
    show u32 (lru.size + 1) = j + 1
    rw [hsz]
    have hcast : ((j : Nat) : Int) + 1 = ((j + 1 : Nat) : Int) := by push_cast; ring
    rw [hcast, u32_natCast _ (by omega)]
  have hAget : ∀ i, lget (addNewSlot lru).1.buf i = lget lru.buf i :=
    fun i => lget_addNewSlot lru i h2 (by omega)
  have hAsize : (addNewSlot lru).1.size = ((j : Nat) : Int) + 1 := by
    rw [addNewSlot_fst_size, hsz]
  have hAmax : (addNewSlot lru).1.maxSize = ((N : Nat) : Int) := by
    rw [addNewSlot_fst_maxSize, hms]
  have hAel : (addNewSlot lru).1.elements = lru.elements := addNewSlot_fst_elements lru
  have hAleN : ((addNewSlot lru).1.buf.length : Int) ≤ ((N : Nat) : Int) + 1 := by
    unfold addNewSlot
    show ((if lru.size + 1 ≥ ((lru.buf.length : Int)) then lruRealloc { lru with size := lru.size + 1 } else { lru with size := lru.size + 1 }).buf.length : Int) ≤ ((N : Nat) : Int) + 1
    split
    · rw [lruRealloc_length]
      unfold lruGrowSize
      dsimp only
      rw [hms]
      split <;> omega
    · dsimp only
      exact hlenN
  have hA2 : 2 ≤ (addNewSlot lru).1.buf.length := by
    unfold addNewSlot
    show 2 ≤ (if lru.size + 1 ≥ ((lru.buf.length : Int)) then lruRealloc { lru with size := lru.size + 1 } else { lru with size := lru.size + 1 }).buf.length
    split
    · rw [lruRealloc_length]
      unfold lruGrowSize
      dsimp only
      rw [hms]
      split <;> omega
    · dsimp only
      exact h2
  have hAj : j + 1 < (addNewSlot lru).1.buf.length ∧ (addNewSlot lru).1.buf.length < 2 ^ 32 := by
    rw [hu, u32_natCast_mod] at hraw
    omega
  obtain ⟨hAjlt, hAlt32⟩ := hAj
  rw [hu]
  unfold addFill
  have hAdef : lget (addNewSlot lru).1.buf (j + 1) = default := by
    rw [hAget]
    exact hhigh (j + 1) (by omega)
  set B : LRU K V := { (addNewSlot lru).1 with
      buf := lset (addNewSlot lru).1.buf (j + 1)
        ({ lget (addNewSlot lru).1.buf (j + 1) with key := some (ks (j + 1)), value := some (vs (j + 1)) }),
      elements := mapInsert (addNewSlot lru).1.elements (some (ks (j + 1))) (j + 1) } with hBdef
  have hBlen : B.buf.length = (addNewSlot lru).1.buf.length := by
    rw [hBdef]
    show (lset (addNewSlot lru).1.buf (j + 1) _).length = _
    exact length_lset _ _ _
  have hBsize : B.size = ((j : Nat) : Int) + 1 := by
    rw [hBdef]
    exact hAsize
  have hBmax : B.maxSize = ((N : Nat) : Int) := by
    rw [hBdef]
    exact hAmax
  have hBget : ∀ i, lget B.buf i =
      if i = j + 1 then ⟨0, 0, some (ks (j + 1)), some (vs (j + 1))⟩ else lget lru.buf i := by
    intro i
    rw [hBdef]
    show lget (lset (addNewSlot lru).1.buf (j + 1) _) i = _
    rw [lget_lset]
    by_cases hi : i = j + 1
    · rw [if_pos ⟨hi, hAjlt⟩, if_pos hi, hAdef]
      rfl
    · rw [if_neg (fun hc => hi hc.1), if_neg hi, hAget]
  have hBel : B.elements = fillMap (fun i => some (ks i)) (j + 1) := by
    rw [hBdef]
    show mapInsert (addNewSlot lru).1.elements (some (ks (j + 1))) (j + 1) = _
    rw [hAel, hmap, mapInsert_of_absent _ _ _ (by rw [← hmap]; exact hfind)]
    rfl
  have hB0 : lget B.buf 0 = ⟨(if j = 0 then 0 else 1), j, none, none⟩ := by
    rw [hBget, if_neg (by omega)]
    exact hroot
  have hnxtB : (lget B.buf 0).next = j := by
    rw [hB0]
  have hBe : (lget B.buf (j + 1)).prev = 0 := by
    rw [hBget, if_pos rfl]
  have hfm := moveToFront_fresh B (j + 1)
      (by rw [hnxtB]; omega)
      hBe
      (by omega)
      (by rw [hBlen]; exact hAjlt)
      (by rw [hnxtB, hBlen]; omega)
  rw [hnxtB] at hfm
  refine ⟨?_, ?_, ?_, ?_, ?_, ?_, ?_, ?_, ?_, ?_⟩
  · rw [moveToFront_size, hBsize]
    push_cast
    ring
  · rw [moveToFront_maxSize, hBmax]
  · rw [moveToFront_length, hBlen]
    exact hA2
  · rw [moveToFront_length, hBlen]
    push_cast
    omega
  · rw [moveToFront_length, hBlen]
    exact hAleN
  · rw [moveToFront_length, hBlen]
    exact hAlt32
  · rw [hfm 0, if_neg (by omega), if_pos rfl]
    by_cases hj0 : j = 0
    · subst hj0
      rw [if_pos rfl, hB0]
      rfl
    · rw [if_neg hj0, hB0, if_neg hj0, if_neg (by omega : ¬(j + 1 = 0))]
  · intro i h1i h2i
    by_cases hie : i = j + 1
    · subst hie
      rw [hfm (j + 1), if_pos rfl]
      rw [hBget, if_pos rfl]
      rw [if_pos rfl]
      rfl
    · by_cases hij : i = j
      · subst hij
        rw [hfm i, if_neg (by omega), if_neg (by omega), if_pos rfl]
        rw [hBget, if_neg (by omega)]
        rw [hmid i h1i (le_refl i), if_pos rfl]
        rw [if_neg (by omega : ¬(i = i + 1))]
      · rw [hfm i, if_neg hie, if_neg (by omega), if_neg hij, hBget, if_neg hie]
        rw [hmid i h1i (by omega), if_neg hij]
        rw [if_neg hie]
  · intro i hi
    rw [hfm i, if_neg (by omega), if_neg (by omega), if_neg (by omega), hBget,
      if_neg (by omega)]
    exact hhigh i (by omega)
  · rw [moveToFront_elements]
    exact hBel

theorem key_setNextF (b : List (cacheEntry K V)) (j n i : Nat) :
    (lget (setNextF b j n) i).key = (lget b i).key := by
  unfold setNextF
  rw [lget_lset]
  split
  · rename_i h
    rw [h.1]
  · rfl

theorem key_setPrevF (b : List (cacheEntry K V)) (j p i : Nat) :
    (lget (setPrevF b j p) i).key = (lget b i).key := by
  unfold setPrevF
  rw [lget_lset]
  split
  · rename_i h
    rw [h.1]
  · rfl

theorem key_setLinksF (b : List (cacheEntry K V)) (j p n i : Nat) :
    (lget (setLinksF b j p n) i).key = (lget b i).key := by
  unfold setLinksF
  rw [lget_lset]
  split
  · rename_i h
    rw [h.1]
  · rfl

theorem value_setNextF (b : List (cacheEntry K V)) (j n i : Nat) :
    (lget (setNextF b j n) i).value = (lget b i).value := by
  unfold setNextF
  rw [lget_lset]
  split
  · rename_i h
    rw [h.1]
  · rfl

theorem value_setPrevF (b : List (cacheEntry K V)) (j p i : Nat) :
    (lget (setPrevF b j p) i).value = (lget b i).value := by
  unfold setPrevF
  rw [lget_lset]
  split
  · rename_i h
    rw [h.1]
  · rfl

theorem value_setLinksF (b : List (cacheEntry K V)) (j p n i : Nat) :
    (lget (setLinksF b j p n) i).value = (lget b i).value := by
  unfold setLinksF
  rw [lget_lset]
  split
  · rename_i h
    rw [h.1]
  · rfl

theorem key_moveToFront (lru : LRU K V) (e i : Nat) :
    (lget (moveToFront lru e).buf i).key = (lget lru.buf i).key := by
  unfold moveToFront
  split
  · rfl
  · dsimp only
    split
    · simp only [key_setPrevF, key_setNextF, key_setLinksF]
    · simp only [key_setPrevF, key_setNextF, key_setLinksF]

theorem value_moveToFront (lru : LRU K V) (e i : Nat) :
    (lget (moveToFront lru e).buf i).value = (lget lru.buf i).value := by
  unfold moveToFront
  split
  · rfl
  · dsimp only
    split
    · simp only [value_setPrevF, value_setNextF, value_setLinksF]
    · simp only [value_setPrevF, value_setNextF, value_setLinksF]

theorem Peek_found {K V : Type} [DecidableEq K] (lru : LRU K V) (k : K) (e : Nat)
    (hf : mapFind lru.elements (some k) = some e) :
    Peek lru k = ((lget lru.buf e).value, true) := by
  unfold Peek
  rw [hf]

theorem Peek_missing {K V : Type} [DecidableEq K] (lru : LRU K V) (k : K)
    (hf : mapFind lru.elements (some k) = none) :
    Peek lru k = (none, false) := by
  unfold Peek
  rw [hf]

theorem Add_evict_state {K V : Type} [DecidableEq K] (lru : LRU K V) (k : K) (v : V)
    (hfind : mapFind lru.elements (some k) = none)
    (hsz : ¬ lru.size < lru.maxSize)
    (hbound : (lget lru.buf 0).prev < lru.buf.length)
    (hlen32 : lru.buf.length < 2 ^ 32) :
    Add lru k v = some (addFill (addEvict lru).1 k v ((lget lru.buf 0).prev)) ∧
    (addFill (addEvict lru).1 k v ((lget lru.buf 0).prev)).elements =
      mapInsert (mapDelete lru.elements ((lget lru.buf ((lget lru.buf 0).prev)).key))
        (some k) ((lget lru.buf 0).prev) ∧
    (∀ i, (lget (addFill (addEvict lru).1 k v ((lget lru.buf 0).prev)).buf i).value =
      if i = (lget lru.buf 0).prev then some v else (lget lru.buf i).value) := by
  refine ⟨?_, ?_, ?_⟩
  · have hc : ¬ (lget lru.buf 0).prev ≥ u32 ((lru.buf.length : Int)) := by
      rw [u32_natCast _ hlen32]
      omega
    rw [Add_eq_miss _ _ _ hfind, if_neg hsz]
    show (if (lget lru.buf 0).prev ≥ u32 ((lru.buf.length : Int)) then (none : Option (LRU K V))
          else some (addFill (addEvict lru).1 k v ((lget lru.buf 0).prev))) =
         some (addFill (addEvict lru).1 k v ((lget lru.buf 0).prev))
    rw [if_neg hc]
  · show (moveToFront _ _).elements = _
    rw [moveToFront_elements]
    rfl
  · intro i
    show (lget (moveToFront _ _).buf i).value = _
    rw [value_moveToFront]
    show (lget (lset lru.buf ((lget lru.buf 0).prev) _) i).value = _
    rw [lget_lset]
    split
    · rename_i h
      rw [if_pos h.1]
    · rename_i h
      rw [if_neg (fun hc => h ⟨hc, hbound⟩)]

theorem fillDesc_run {K V : Type} [DecidableEq K] (ks : Nat → K) (vs : Nat → V)
    (N : Nat) (hN : 1 ≤ N) (hNmax : (N : Int) ≤ maxLRUSize)
    (lru0 : LRU K V) (h0 : New K V (N : Int) = some lru0) (j : Nat) :
    j ≤ N → (∀ i i', 1 ≤ i → i < i' → i' ≤ j → ks i ≠ ks i') →
    ∀ lru, runLOps lru0 (fillOps ks vs j) = some lru →
      FillDesc ks vs (N : Int) j lru := by
  induction j with
  | zero =>
    intro _ _ lru hrun
    simp only [fillOps, runLOps, Option.some.injEq] at hrun
    subst hrun
    exact fillDesc_new ks vs N hN lru0 h0
  | succ j ih =>
    intro hjN hdist lru hrun
    rw [show fillOps ks vs (j + 1) =
        fillOps ks vs j ++ [LOp.add (ks (j + 1)) (vs (j + 1))] from rfl,
      runLOps_append] at hrun
    cases hmid : runLOps lru0 (fillOps ks vs j) with
    | none =>
      rw [hmid] at hrun
      exact Option.noConfusion hrun
    | some mid =>
      rw [hmid] at hrun
      have hd := ih (by omega) (fun i i' a b c => hdist i i' a b (by omega)) mid hmid
      cases hadd : Add mid (ks (j + 1)) (vs (j + 1)) with
      | none =>
        simp only [runLOps, applyLOp, hadd] at hrun
        exact Option.noConfusion hrun
      | some lru2 =>
        simp only [runLOps, applyLOp, hadd, Option.some.injEq] at hrun
        subst hrun
        exact fillDesc_step ks vs N j hNmax
          (fun i a b => hdist i (j + 1) a (by omega) (le_refl _)) (by omega) mid lru2 hd hadd

theorem scMoveToFront_fresh (sc : StringCache) (e : Nat)
    (hz : (lget sc.buf 0).next ≠ e)
    (hp : (lget sc.buf e).prev = 0)
    (hne0 : e ≠ 0)
    (he : e < sc.buf.length)
    (hnxtlt : (lget sc.buf 0).next < sc.buf.length) :
    ∀ i, lget (scMoveToFront sc e).buf i =
      if i = e then { lget sc.buf e with prev := 0, next := (lget sc.buf 0).next }
      else if i = 0 then
        (if (lget sc.buf 0).next = 0 then { lget sc.buf 0 with prev := e, next := e }
         else { lget sc.buf 0 with next := e })
      else if i = (lget sc.buf 0).next then { lget sc.buf i with prev := e }
      else lget sc.buf i := by
  intro i
  have h0 : 0 < sc.buf.length := by omega
  have hmain : (scMoveToFront sc e).buf =
      sSetPrevF (sSetNextF (sSetLinksF sc.buf e 0 ((lget sc.buf 0).next)) 0 e)
        ((lget sc.buf 0).next) e := by
    unfold scMoveToFront
    rw [if_neg hz, if_neg (by simp [hp])]
  rw [hmain]
  set nxt := (lget sc.buf 0).next with hnxtdef
  set b2 := sSetLinksF sc.buf e 0 nxt with hb2
  set b3 := sSetNextF b2 0 e with hb3
  have hlen2 : b2.length = sc.buf.length := length_sSetLinksF _ _ _ _
  have hlen3 : b3.length = sc.buf.length := by
    rw [hb3, length_sSetNextF, hlen2]
  have hg2 : ∀ j, lget b2 j =
      if j = e then { lget sc.buf e with prev := 0, next := nxt } else lget sc.buf j := by
    intro j
    by_cases hj : j = e
    · subst hj
      rw [hb2, lget_sSetLinksF, if_pos ⟨rfl, he⟩, if_pos rfl]
    · rw [hb2, lget_sSetLinksF, if_neg (fun hc => hj hc.1), if_neg hj]
  have hg3 : ∀ j, lget b3 j =
      if j = 0 then { lget sc.buf 0 with next := e } else lget b2 j := by
    intro j
    by_cases hj : j = 0
    · subst hj
      rw [hb3, lget_sSetNextF, if_pos ⟨rfl, by omega⟩, if_pos rfl]
      rw [hg2 0, if_neg (Ne.symm hne0)]
    · rw [hb3, lget_sSetNextF, if_neg (fun hc => hj hc.1), if_neg hj]
  rw [lget_sSetPrevF]
  by_cases hie : i = e
  · subst hie
    rw [if_neg (fun hc => hz hc.1.symm)]
    rw [hg3, if_neg hne0, hg2, if_pos rfl, if_pos rfl]
  · rw [if_neg hie]
    by_cases hi0 : i = 0
    · subst hi0
      rw [if_pos rfl]
      by_cases hn0 : nxt = 0
      · rw [if_pos hn0]
        rw [if_pos ⟨hn0.symm, by omega⟩]
        rw [hn0, hg3, if_pos rfl]
      · rw [if_neg hn0]
        rw [if_neg (fun hc => hn0 hc.1.symm)]
        rw [hg3, if_pos rfl]
    · rw [if_neg hi0]
      by_cases hin : i = nxt
      · rw [if_pos hin]
        rw [if_pos ⟨hin, by omega⟩]
        rw [← hin, hg3, if_neg hi0, hg2, if_neg hie]
      · rw [if_neg hin, if_neg (fun hc => hin hc.1)]
        rw [hg3, if_neg hi0, hg2, if_neg hie]

theorem lget_scRealloc_default (sc : StringCache) (n : Int)
    (h : ∀ i, lget sc.buf i = default) : ∀ i, lget (scRealloc sc n).buf i = default := by
  intro i
  show lget (listCopy sc.buf (List.replicate (((if n = 0 then scGrowSize sc else n)).toNat) default)) i = default
  rw [lget_listCopy]
  by_cases h1 : i < (List.replicate (((if n = 0 then scGrowSize sc else n)).toNat) (default : stringElem)).length
  · rw [if_pos h1]
    by_cases h2 : i < sc.buf.length
    · rw [if_pos h2]
      exact h i
    · rw [if_neg h2]
      exact lget_replicate _ _
  · rw [if_neg h1]

theorem Intern_fresh_desc (sc : StringCache) (v : GoStr) (j : Nat)
    (hsz : sc.size = (j : Int))
    (hfind : mapFind sc.values v.content = none)
    (hcap : sc.size < sc.maxSize)
    (hroom : sc.size + 1 < ((sc.buf.length : Int)))
    (hj32 : j + 1 < 2 ^ 32)
    (hp0 : (lget sc.buf (j + 1)).prev = 0)
    (hz : (lget sc.buf 0).next ≠ j + 1)
    (hnxtlt : (lget sc.buf 0).next < sc.buf.length) :
    (Intern sc v).2.size = sc.size + 1 ∧
    (Intern sc v).2.maxSize = sc.maxSize ∧
    (Intern sc v).2.buf.length = sc.buf.length ∧
    (Intern sc v).2.values = mapInsert sc.values v.content (j + 1) ∧
    (∀ i, lget ((Intern sc v).2).buf i =
      if i = j + 1 then
        { lget sc.buf (j + 1) with value := v, prev := 0, next := (lget sc.buf 0).next }
      else if i = 0 then
        (if (lget sc.buf 0).next = 0 then { lget sc.buf 0 with prev := j + 1, next := j + 1 }
         else { lget sc.buf 0 with next := j + 1 })
      else if i = (lget sc.buf 0).next then { lget sc.buf i with prev := j + 1 }
      else lget sc.buf i) := by
  have hjlen : j + 1 < sc.buf.length := by omega
  have he : u32 ({ sc with missCount := sc.missCount + 1 }.size + 1) = j + 1 := by
    show u32 (sc.size + 1) = j + 1
    rw [hsz, show ((j : Int) + 1) = (((j + 1 : Nat)) : Int) from (by push_cast; ring)]
    exact u32_natCast _ hj32
  have hX : (Intern sc v).2 =
      (internMiss (internNew { sc with missCount := sc.missCount + 1 } v) v).2 := by
    rw [Intern_eq_miss _ _ hfind, if_pos hcap]
  have hnoreal : ¬ { sc with missCount := sc.missCount + 1 }.size + 1 ≥
      (({ sc with missCount := sc.missCount + 1 }.buf.length : Int)) := by
    show ¬ sc.size + 1 ≥ ((sc.buf.length : Int))
    omega
  have hN : internNew { sc with missCount := sc.missCount + 1 } v =
      (scSetValue { sc with missCount := sc.missCount + 1, size := sc.size + 1 } (j + 1) v,
       j + 1) := by
    unfold internNew
    rw [if_neg hnoreal, he]
  have hXbuf : ∀ i, lget (scSetValue { sc with missCount := sc.missCount + 1, size := sc.size + 1 } (j + 1) v).buf i =
      if i = j + 1 then { lget sc.buf (j + 1) with value := v } else lget sc.buf i := by
    intro i
    show lget (lset sc.buf (j + 1) ({ lget sc.buf (j + 1) with value := v })) i = _
    rw [lget_lset]
    by_cases hi : i = j + 1
    · rw [if_pos ⟨hi, hjlen⟩, if_pos hi]
    · rw [if_neg (fun hc => hi hc.1), if_neg hi]
  have hXlen : (scSetValue { sc with missCount := sc.missCount + 1, size := sc.size + 1 } (j + 1) v).buf.length = sc.buf.length := by
    show (lset sc.buf (j + 1) _).length = sc.buf.length
    exact length_lset _ _ _
  have hX0 : lget (scSetValue { sc with missCount := sc.missCount + 1, size := sc.size + 1 } (j + 1) v).buf 0 = lget sc.buf 0 := by
    rw [hXbuf 0, if_neg (by omega)]
  have hfm := scMoveToFront_fresh (scSetValue { sc with missCount := sc.missCount + 1, size := sc.size + 1 } (j + 1) v) (j + 1)
    (by rw [hX0]; exact hz)
    (by rw [hXbuf (j + 1), if_pos rfl]; exact hp0)
    (by omega)
    (by rw [hXlen]; exact hjlen)
    (by rw [hX0, hXlen]; exact hnxtlt)
  rw [hX0] at hfm
  have hres : (Intern sc v).2 =
      { scMoveToFront (scSetValue { sc with missCount := sc.missCount + 1, size := sc.size + 1 } (j + 1) v) (j + 1) with values := mapInsert sc.values v.content (j + 1) } := by
    rw [hX, hN]
    unfold internMiss
    dsimp only
    rw [scMoveToFront_values]
    rfl
  refine ⟨?_, ?_, ?_, ?_, ?_⟩
  · rw [hres]
    show (scMoveToFront _ (j + 1)).size = sc.size + 1
    rw [scMoveToFront_size]
    rfl
  · rw [hres]
    show (scMoveToFront _ (j + 1)).maxSize = sc.maxSize
    rw [scMoveToFront_maxSize]
    rfl
  · rw [hres]
    show (scMoveToFront _ (j + 1)).buf.length = sc.buf.length
    rw [scMoveToFront_length, hXlen]
  · rw [hres]
  · intro i
    rw [hres]
    show lget (scMoveToFront (scSetValue { sc with missCount := sc.missCount + 1, size := sc.size + 1 } (j + 1) v) (j + 1)).buf i = _
    rw [hfm i]
    by_cases hi : i = j + 1
    · rw [if_pos hi, if_pos hi, hXbuf (j + 1), if_pos rfl]
    · rw [if_neg hi, if_neg hi]
      by_cases hi0 : i = 0
      · rw [if_pos hi0, if_pos hi0]
      · rw [if_neg hi0, if_neg hi0]
        by_cases hin : i = (lget sc.buf 0).next
        · rw [if_pos hin, if_pos hin, hXbuf i, if_neg hi]
        · rw [if_neg hin, if_neg hin, hXbuf i, if_neg hi]

theorem runSOps_nil (sc : StringCache) : runSOps sc [] = sc := by
  simp only [runSOps]

theorem runSOps_cons (sc : StringCache) (op : SOp) (rest : List SOp) :
    runSOps sc (op :: rest) = runSOps (applySOp sc op) rest := by
  simp only [runSOps]

theorem applySOp_intern (sc : StringCache) (v : GoStr) :
    applySOp sc (SOp.intern v) = (Intern sc v).2 := by
  simp only [applySOp]

theorem applySOp_prealloc (sc : StringCache) :
    applySOp sc SOp.prealloc = Prealloc sc := by
  simp only [applySOp]

theorem scValidateLoop_next_error (sc : StringCache) (fuel cur count : Nat)
    (hc : cur ≠ 0)
    (hlt : cur < sc.buf.length)
    (hprev_ok : ¬ (lget sc.buf cur).prev > u32 ((sc.buf.length : Int)))
    (hpn : (lget sc.buf ((lget sc.buf cur).prev)).next = cur)
    (hbad : (lget sc.buf cur).next > u32 ((sc.buf.length : Int))) :
    scValidateLoop sc (fuel + 1) cur count = some "the value next > len(buf)" := by
  unfold scValidateLoop
  rw [if_neg hc]
  show (if cur ≥ sc.buf.length then some "index out of range"
        else
          if (lget sc.buf cur).prev > u32 ((sc.buf.length : Int)) then
            some "the value prev > len(buf)"
          else
            if (lget sc.buf ((lget sc.buf cur).prev)).next ≠ cur then
              some "the prev.next is not this"
            else if (lget sc.buf cur).next > u32 ((sc.buf.length : Int)) then
              some "the value next > len(buf)"
            else
              if (lget sc.buf ((lget sc.buf cur).next)).prev ≠ cur then
                some "the next.prev is not this"
              else if (mapFind sc.values (lget sc.buf cur).value.content).getD 0 ≠ cur then
                some "the map doesn't point to cur"
              else scValidateLoop sc fuel ((lget sc.buf cur).next) (count + 1)) =
      some "the value next > len(buf)"
  rw [if_neg (by omega), if_neg hprev_ok, if_neg (fun hne => hne hpn), if_pos hbad]

/-! ### Claims -/

/-- Claim C2, counterexample: the claim says construction fails for every
non-positive capacity "equally for NewStringCache", but `NewStringCache 0`
succeeds — its only check is `size > 1<<32`. -/
theorem claim_C2_counterexample : ((0 : Int) ≤ 0) ∧ NewStringCache 0 ≠ none :=
  ⟨le_refl 0, by decide⟩

/-- Claim C2 (amended): `New` fails exactly when the capacity is
non-positive or exceeds `2^32 − 1`, and succeeds for every capacity inside
that range.  `NewStringCache` agrees for negative capacities (there `init`
panics) and for capacities above `2^32`, but differs at the two boundaries
the counterexample exposes: it accepts capacity `0` (its only explicit
check is `size > 1<<32`) and it also accepts capacity `2^32`. -/
theorem claim_C2 (K V : Type) (c : Int) :
    ((New K V c).isSome = true ↔ (0 < c ∧ c ≤ 2 ^ 32 - 1)) ∧
    ((NewStringCache c).isSome = true ↔ (0 ≤ c ∧ c ≤ 2 ^ 32)) := by
  constructor
  · unfold New
    split
    · rename_i hc
      simp only [maxLRUSize] at hc
      simp only [Option.isSome_none, Bool.false_eq_true, false_iff]
      omega
    · rename_i hc
      simp only [maxLRUSize] at hc
      simp only [Option.isSome_some, true_iff]
      omega
  · unfold NewStringCache
    split
    · rename_i hc
      simp only [Option.isSome_none, Bool.false_eq_true, false_iff]
      omega
    · rename_i hc
      by_cases hg : (if c + 1 > 100 then (101 : Int) else c + 1) ≤ 0
      · rw [if_pos hg]
        simp only [Option.isSome_none, Bool.false_eq_true, false_iff]
        intro hcon
        obtain ⟨h0, _⟩ := hcon
        split at hg <;> omega
      · rw [if_neg hg]
        simp only [Option.isSome_some, true_iff]
        constructor
        · by_cases h100 : c + 1 > 100
          · omega
          · rw [if_neg h100] at hg
            omega
        · omega

/-- Claim C4: for a cache built by `New` with capacity `c`, `Len ≤ c`
holds after every (non-panicking) sequence of operations; and adding `c`
distinct fresh keys reaches `Len = c` exactly, after which `Len` stays
exactly `c` over every further sequence of operations. -/
theorem claim_C4 (K V : Type) [DecidableEq K] (c : Nat) (hc : 1 ≤ c)
    (ks : Nat → K) (vs : Nat → V)
    (hdist : ∀ i i', 1 ≤ i → i < i' → i' ≤ c → ks i ≠ ks i')
    (lru0 : LRU K V) (hNew : New K V (c : Int) = some lru0) :
    (∀ (ops : List (LOp K V)) (lru' : LRU K V), runLOps lru0 ops = some lru' →
      Len lru' ≤ (c : Int)) ∧
    (∀ (lru1 : LRU K V), runLOps lru0 (fillOps ks vs c) = some lru1 →
      Len lru1 = (c : Int) ∧
      ∀ (ops2 : List (LOp K V)) (lru2 : LRU K V),
        runLOps lru1 ops2 = some lru2 → Len lru2 = (c : Int)) := by
  have hP0 : lru0.size ≤ lru0.maxSize ∧ lru0.maxSize = (c : Int) ∧
      (c : Int) ≤ maxLRUSize := by
    unfold New at hNew
    split at hNew
    · exact Option.noConfusion hNew
    · rename_i hcc
      simp only [maxLRUSize] at hcc
      simp only [Option.some.injEq] at hNew
      subst hNew
      refine ⟨?_, rfl, ?_⟩
      · show (0 : Int) ≤ (c : Int)
        omega
      · simp only [maxLRUSize]
        omega
  have hkeep : ∀ (ops : List (LOp K V)) (lru lru' : LRU K V),
      (lru.size ≤ lru.maxSize ∧ lru.maxSize = (c : Int)) → runLOps lru ops = some lru' →
      lru'.size ≤ lru'.maxSize ∧ lru'.maxSize = (c : Int) := by
    refine runLOps_rec _ ?_ ?_
    · intro lru k v lru' hP h
      rcases Add_size lru k v lru' h with ⟨hm, hs⟩
      rcases hs with h1 | ⟨h1, h2⟩ <;> exact ⟨by omega, by omega⟩
    · intro lru k hP
      rcases Get_state_size lru k with ⟨h1, h2⟩
      exact ⟨by omega, by omega⟩
  constructor
  · intro ops lru' hrun
    rcases hkeep ops lru0 lru' ⟨hP0.1, hP0.2.1⟩ hrun with ⟨h1, h2⟩
    unfold Len
    omega
  · intro lru1 hrun1
    have hd := fillDesc_run ks vs c hc hP0.2.2 lru0 hNew c (le_refl c) hdist lru1 hrun1
    obtain ⟨hsz1, hms1, -, -, -, -, -, -, -, -⟩ := hd
    refine ⟨hsz1, ?_⟩
    intro ops2 lru2 hrun2
    have hkeep2 : ∀ (ops : List (LOp K V)) (lru lru' : LRU K V),
        (lru.size = (c : Int) ∧ lru.maxSize = (c : Int)) → runLOps lru ops = some lru' →
        lru'.size = (c : Int) ∧ lru'.maxSize = (c : Int) := by
      refine runLOps_rec _ ?_ ?_
      · intro lru k v lru' hP h
        rcases Add_size lru k v lru' h with ⟨hm, hs⟩
        rcases hs with h1 | ⟨h1, h2⟩ <;> exact ⟨by omega, by omega⟩
      · intro lru k hP
        rcases Get_state_size lru k with ⟨h1, h2⟩
        exact ⟨by omega, by omega⟩
    rcases hkeep2 ops2 lru1 lru2 ⟨hsz1, hms1⟩ hrun2 with ⟨h1, h2⟩
    unfold Len
    omega

/-- Claim C4 witness at capacity 2: three adds stay within the bound,
filling with 2 distinct keys reaches `Len = 2`, and two further
operations (an evicting add and a get) keep it there. -/
theorem claim_C4_witness :
    (1 ≤ 2) ∧
    Len ((runLOps sampleLru [LOp.add 1 1, LOp.add 2 2, LOp.add 3 3]).getD sampleLru) ≤ 2 ∧
    Len ((runLOps sampleLru (fillOps (fun i => i) (fun i => i) 2)).getD sampleLru) = 2 ∧
    Len ((runLOps ((runLOps sampleLru (fillOps (fun i => i) (fun i => i) 2)).getD sampleLru)
          [LOp.add 4 4, LOp.get 2]).getD sampleLru) = 2 := by
  obtain ⟨h1, h2⟩ := claim_C4 Nat Nat 2 (by decide) (fun i => i) (fun i => i)
    (fun i i' a b hle => by show i ≠ i'; omega) sampleLru (by rfl)
  obtain ⟨h3, h4⟩ := h2
    ((runLOps sampleLru (fillOps (fun i => i) (fun i => i) 2)).getD sampleLru) (by rfl)
  refine ⟨by decide, ?_, h3, ?_⟩
  · exact h1 [LOp.add 1 1, LOp.add 2 2, LOp.add 3 3]
      ((runLOps sampleLru [LOp.add 1 1, LOp.add 2 2, LOp.add 3 3]).getD sampleLru) (by rfl)
  · exact h4 [LOp.add 4 4, LOp.get 2]
      ((runLOps ((runLOps sampleLru (fillOps (fun i => i) (fun i => i) 2)).getD sampleLru)
        [LOp.add 4 4, LOp.get 2]).getD sampleLru) (by rfl)

/-- Claim C5: on a hit `Intern` returns the stored canonical instance
(not the argument), bumps `hitCount` only, moves the slot to the front
(root.next points at it) and leaves the lookup table alone; on a miss it
returns its argument, bumps `missCount` only, and stores the argument at
the slot the lookup table then records; consequently two consecutive
`Intern` calls with equal-content (possibly distinct-identity) strings
return the same canonical instance both times and the second call bumps
`hitCount`, not `missCount`.  The well-formedness hypotheses restate
facts that hold for every reachable cache (in-range lookup entries and
`root.prev`, non-negative size below arena length, capacity below
`2^32`). -/
theorem claim_C5 (sc : StringCache) (s : GoStr)
    (hwf1 : ∀ e, mapFind sc.values s.content = some e → e < sc.buf.length)
    (hwf2 : 0 ≤ sc.size) (hwf3 : sc.size < (sc.buf.length : Int))
    (hwf4 : 2 ≤ sc.buf.length) (hwf5 : sc.maxSize < 2 ^ 32)
    (hwf6 : (lget sc.buf 0).prev < sc.buf.length) :
    (∀ elem, mapFind sc.values s.content = some elem →
      (Intern sc s).1 = (lget sc.buf elem).value ∧
      ((Intern sc s).2).hitCount = sc.hitCount + 1 ∧
      ((Intern sc s).2).missCount = sc.missCount ∧
      (lget ((Intern sc s).2).buf 0).next = elem ∧
      ((Intern sc s).2).values = sc.values) ∧
    (mapFind sc.values s.content = none →
      (Intern sc s).1 = s ∧
      ((Intern sc s).2).missCount = sc.missCount + 1 ∧
      ((Intern sc s).2).hitCount = sc.hitCount ∧
      ∃ e, mapFind ((Intern sc s).2).values s.content = some e ∧
        (lget ((Intern sc s).2).buf e).value = s) ∧
    (∀ s2 : GoStr, s2.content = s.content →
      (Intern (Intern sc s).2 s2).1 = (Intern sc s).1 ∧
      ((Intern (Intern sc s).2 s2).2).hitCount = ((Intern sc s).2).hitCount + 1 ∧
      ((Intern (Intern sc s).2 s2).2).missCount = ((Intern sc s).2).missCount) := by
  refine ⟨?_, ?_, ?_⟩
  · intro elem hf
    have helt := hwf1 elem hf
    rw [Intern_eq_hit sc s elem hf]
    refine ⟨?_, ?_, ?_, ?_, ?_⟩
    · rw [scMoveToFront_value]
    · show (scMoveToFront sc elem).hitCount + 1 = sc.hitCount + 1
      rw [scMoveToFront_hitCount]
    · show (scMoveToFront sc elem).missCount = sc.missCount
      rw [scMoveToFront_missCount]
    · show (lget (scMoveToFront sc elem).buf 0).next = elem
      exact scMoveToFront_root_next sc elem (by omega)
    · show (scMoveToFront sc elem).values = sc.values
      rw [scMoveToFront_values]
  · intro hf
    refine ⟨?_, ?_, ?_, ?_⟩
    · rw [Intern_eq_miss sc s hf]
      rfl
    · rw [Intern_eq_miss sc s hf]
      split
      · rw [internMiss_snd_missCount, internNew_fst_missCount]
      · rw [internMiss_snd_missCount, internEvict_fst_missCount]
    · rw [Intern_eq_miss sc s hf]
      split
      · rw [internMiss_snd_hitCount, internNew_fst_hitCount]
      · rw [internMiss_snd_hitCount, internEvict_fst_hitCount]
    · exact intern_miss_stores sc s hf hwf2 hwf3 hwf4 hwf5 hwf6
  · intro s2 hs2
    rcases hft : mapFind sc.values s.content with _ | elem
    · rcases intern_miss_stores sc s hft hwf2 hwf3 hwf4 hwf5 hwf6 with ⟨e, hfind2, hval2⟩
      have h1 : (Intern sc s).1 = s := by
        rw [Intern_eq_miss sc s hft]
        exact internMiss_fst _ _
      have hfind2' : mapFind ((Intern sc s).2).values s2.content = some e := by
        rw [hs2]
        exact hfind2
      rw [Intern_eq_hit _ s2 e hfind2']
      refine ⟨?_, ?_, ?_⟩
      · show (lget (scMoveToFront (Intern sc s).2 e).buf e).value = (Intern sc s).1
        rw [scMoveToFront_value, hval2, h1]
      · show (scMoveToFront (Intern sc s).2 e).hitCount + 1 = ((Intern sc s).2).hitCount + 1
        rw [scMoveToFront_hitCount]
      · show (scMoveToFront (Intern sc s).2 e).missCount = ((Intern sc s).2).missCount
        rw [scMoveToFront_missCount]
    · have hfind2' : mapFind ((Intern sc s).2).values s2.content = some elem := by
        rw [Intern_eq_hit sc s elem hft]
        show mapFind (scMoveToFront sc elem).values s2.content = some elem
        rw [scMoveToFront_values, hs2]
        exact hft
      rw [Intern_eq_hit _ s2 elem hfind2']
      refine ⟨?_, ?_, ?_⟩
      · show (lget (scMoveToFront (Intern sc s).2 elem).buf elem).value = (Intern sc s).1
        rw [scMoveToFront_value]
        rw [Intern_eq_hit sc s elem hft]
      · show (scMoveToFront (Intern sc s).2 elem).hitCount + 1 = ((Intern sc s).2).hitCount + 1
        rw [scMoveToFront_hitCount]
      · show (scMoveToFront (Intern sc s).2 elem).missCount = ((Intern sc s).2).missCount
        rw [scMoveToFront_missCount]

/-- Claim C5 witness: intern "b" into a cache already holding "a", then
intern an equal-content distinct-identity "b" again. -/
theorem claim_C5_witness :
    ((Intern ((Intern sampleSC ⟨"a", 1⟩).2) ⟨"b", 2⟩).1 = ⟨"b", 2⟩ ∧
      ((Intern ((Intern sampleSC ⟨"a", 1⟩).2) ⟨"b", 2⟩).2).missCount =
        ((Intern sampleSC ⟨"a", 1⟩).2).missCount + 1) ∧
    (Intern (Intern ((Intern sampleSC ⟨"a", 1⟩).2) ⟨"b", 2⟩).2 ⟨"b", 7⟩).1 =
      (Intern ((Intern sampleSC ⟨"a", 1⟩).2) ⟨"b", 2⟩).1 := by
  rcases claim_C5 ((Intern sampleSC ⟨"a", 1⟩).2) ⟨"b", 2⟩
      (by intro e he; rw [show mapFind ((Intern sampleSC ⟨"a", 1⟩).2).values "b" = none from by decide] at he; exact Option.noConfusion he)
      (by decide) (by decide) (by decide) (by decide) (by decide) with ⟨hhit, hmiss, hid⟩
  rcases hmiss (by decide) with ⟨hm1, hm2, hm3, hm4⟩
  exact ⟨⟨hm1, hm2⟩, (hid ⟨"b", 7⟩ rfl).1⟩

/-- Claim C8: when `Intern` must grow the arena, `realloc` replaces it by
one of length `min(max(len−1,1)·3, capacity)+1` (growth factor 3 for the
string cache), never exceeding `capacity+1`, copying every existing slot
at its identical index; the engine's `realloc` does the same with growth
factor 2.  Slot 0 of the new arena is the root by construction (the model
folds `root` into slot 0).  The hypotheses `2 ≤ len(buf) ≤ capacity+1`
hold at every call site. -/
theorem claim_C8 :
    (∀ sc : StringCache, 2 ≤ sc.buf.length → (sc.buf.length : Int) ≤ sc.maxSize + 1 →
      (((scRealloc sc 0).buf.length : Int) =
        min (max ((sc.buf.length : Int) - 1) 1 * 3) sc.maxSize + 1 ∧
       ((scRealloc sc 0).buf.length : Int) ≤ sc.maxSize + 1 ∧
       ∀ i, i < sc.buf.length → lget (scRealloc sc 0).buf i = lget sc.buf i)) ∧
    (∀ (K V : Type) (lru : LRU K V), 2 ≤ lru.buf.length →
      (lru.buf.length : Int) ≤ lru.maxSize + 1 →
      (((lruRealloc lru).buf.length : Int) =
        min (max ((lru.buf.length : Int) - 1) 1 * 2) lru.maxSize + 1 ∧
       ((lruRealloc lru).buf.length : Int) ≤ lru.maxSize + 1 ∧
       ∀ i, i < lru.buf.length → lget (lruRealloc lru).buf i = lget lru.buf i)) := by
  constructor
  · intro sc h2 hle
    have hL : (2 : Int) ≤ (sc.buf.length : Int) := by exact_mod_cast h2
    have hmax : max ((sc.buf.length : Int) - 1) 1 = (sc.buf.length : Int) - 1 :=
      max_eq_left (by omega)
    have hlen : ((scRealloc sc 0).buf.length : Int) =
        min (((sc.buf.length : Int) - 1) * 3) sc.maxSize + 1 := by
      rw [scRealloc0_length]
      unfold scGrowSize
      split
      · rename_i hgt
        rw [min_eq_right (by omega)]
        rw [Int.toNat_of_nonneg (by omega)]
      · rename_i hgt
        rw [min_eq_left (by omega)]
        rw [Int.toNat_of_nonneg (by omega)]
    refine ⟨by rw [hlen, hmax], ?_, ?_⟩
    · rw [hlen]
      have := min_le_right (((sc.buf.length : Int) - 1) * 3) sc.maxSize
      omega
    · intro i hi
      have hge : ((scRealloc sc 0).buf.length : Int) ≥ (sc.buf.length : Int) := by
        rw [hlen]
        have h4 : (sc.buf.length : Int) - 1 ≤ min (((sc.buf.length : Int) - 1) * 3) sc.maxSize :=
          le_min (by omega) (by omega)
        omega
      exact lget_scRealloc sc 0 i hi (by omega)
  · intro K V lru h2 hle
    have hL : (2 : Int) ≤ (lru.buf.length : Int) := by exact_mod_cast h2
    have hmax : max ((lru.buf.length : Int) - 1) 1 = (lru.buf.length : Int) - 1 :=
      max_eq_left (by omega)
    have hlen : ((lruRealloc lru).buf.length : Int) =
        min (((lru.buf.length : Int) - 1) * 2) lru.maxSize + 1 := by
      rw [lruRealloc_length]
      unfold lruGrowSize
      split
      · rename_i hgt
        rw [min_eq_right (by omega)]
        rw [Int.toNat_of_nonneg (by omega)]
      · rename_i hgt
        rw [min_eq_left (by omega)]
        rw [Int.toNat_of_nonneg (by omega)]
    refine ⟨by rw [hlen, hmax], ?_, ?_⟩
    · rw [hlen]
      have := min_le_right (((lru.buf.length : Int) - 1) * 2) lru.maxSize
      omega
    · intro i hi
      have hge : ((lruRealloc lru).buf.length : Int) ≥ (lru.buf.length : Int) := by
        rw [hlen]
        have h4 : (lru.buf.length : Int) - 1 ≤ min (((lru.buf.length : Int) - 1) * 2) lru.maxSize :=
          le_min (by omega) (by omega)
        omega
      exact lget_lruRealloc lru i hi (by omega)

/-- Claim C8 witness on the sample caches (arena length 3, capacity 2). -/
theorem claim_C8_witness :
    (((scRealloc sampleSC 0).buf.length : Int) =
      min (max ((sampleSC.buf.length : Int) - 1) 1 * 3) sampleSC.maxSize + 1 ∧
     ((scRealloc sampleSC 0).buf.length : Int) ≤ sampleSC.maxSize + 1 ∧
     lget (scRealloc sampleSC 0).buf 1 = lget sampleSC.buf 1) ∧
    (((lruRealloc sampleLru).buf.length : Int) =
      min (max ((sampleLru.buf.length : Int) - 1) 1 * 2) sampleLru.maxSize + 1 ∧
     lget (lruRealloc sampleLru).buf 1 = lget sampleLru.buf 1) := by
  rcases claim_C8 with ⟨h1, h2⟩
  rcases h1 sampleSC (by decide) (by decide) with ⟨ha, hb, hc⟩
  rcases h2 Nat Nat sampleLru (by decide) (by decide) with ⟨hd, he, hf⟩
  exact ⟨⟨ha, hb, hc 1 (by decide)⟩, ⟨hd, hf 1 (by decide)⟩⟩

/-- Claim C7: `Peek` answers exactly as `Get` would; `Get` on a miss
returns the cache unchanged; and removing any `Peek` calls from an
operation sequence leaves the resulting cache state (hence also the next
eviction) unchanged. -/
theorem claim_C7 (K V : Type) [DecidableEq K] (lru : LRU K V) (k : K) :
    Peek lru k = (Get lru k).1 ∧
    (mapFind lru.elements (some k) = none → (Get lru k).2 = lru) ∧
    (∀ ops : List (LOp K V),
      runLOps lru (ops.filter fun o => !(isPeekOp o)) = runLOps lru ops) :=
  ⟨Peek_eq_Get_fst lru k, Get_miss_state lru k, fun ops => runLOps_filter_peek lru ops⟩

/-- Claim C7 witness on a concrete cache and workload. -/
theorem claim_C7_witness :
    Peek sampleLru 5 = (Get sampleLru 5).1 ∧ (Get sampleLru 5).2 = sampleLru ∧
      runLOps sampleLru ([LOp.peek 1, LOp.add 1 2, LOp.peek 1].filter fun o => !(isPeekOp o)) =
        runLOps sampleLru [LOp.peek 1, LOp.add 1 2, LOp.peek 1] := by
  rcases claim_C7 Nat Nat sampleLru 5 with ⟨h1, h2, h3⟩
  exact ⟨h1, h2 (by decide), h3 _⟩

/-- Claim C9: re-adding an existing key hits the lookup table, leaves
`Len` unchanged and stores the new value, which `Get` then returns.  The
lookup-table hypothesis states that the slot recorded for `k` (if any)
lies inside the arena, which holds for every reachable cache (in Go a
violation would be an out-of-range panic). -/
theorem claim_C9 (K V : Type) [DecidableEq K] (lru : LRU K V) (k : K) (v v2 : V)
    (lru1 : LRU K V)
    (hin : ∀ e, mapFind lru.elements (some k) = some e → e < lru.buf.length)
    (h1 : Add lru k v = some lru1) :
    ∃ lru2, Add lru1 k v2 = some lru2 ∧ Len lru2 = Len lru1 ∧
      (Get lru2 k).1 = (some v2, true) := by
  rcases Add_finds_key lru k v lru1 hin h1 with ⟨e, hfind, helt⟩
  refine ⟨addHit lru1 e v2, Add_eq_hit lru1 k v2 e hfind, ?_, ?_⟩
  · unfold Len
    exact addHit_size _ _ _
  · have hfind2 : mapFind (addHit lru1 e v2).elements (some k) = some e := by
      rw [addHit_elements]
      exact hfind
    have hlen2 : e < (moveToFront lru1 e).buf.length := by
      rw [moveToFront_length]
      exact helt
    have hv : (lget (moveToFront (addHit lru1 e v2) e).buf e).value = some v2 := by
      rw [(moveToFront_keyval _ _ _).2]
      show (lget (lset (moveToFront lru1 e).buf e
        ({ lget (moveToFront lru1 e).buf e with value := some v2 })) e).value = some v2
      rw [lget_lset_self _ _ _ hlen2]
    rw [Get_eq_hit _ k e hfind2, hv]

/-- Claim C9 witness: add key 1 twice to a small cache. -/
theorem claim_C9_witness :
    ∃ lru2, Add ((Add sampleLru 1 5).getD sampleLru) 1 7 = some lru2 ∧
      Len lru2 = Len ((Add sampleLru 1 5).getD sampleLru) ∧
      (Get lru2 1).1 = (some 7, true) := by
  refine claim_C9 Nat Nat sampleLru 1 5 7 _ ?_ ?_
  · intro e he
    rw [show mapFind sampleLru.elements (some 1) = none from by decide] at he
    exact Option.noConfusion he
  · decide

/-- Claim C10: no public operation ever decreases `Len` — the string
cache's `Intern`/`Contains`/`Validate`/`Prealloc` and the engine's
`Add`/`Get`/`Peek` all keep `size` non-decreasing over any run. -/
theorem claim_C10 :
    (∀ (sc : StringCache) (ops : List SOp), sc.size ≤ (runSOps sc ops).size) ∧
    (∀ (K V : Type) [DecidableEq K] (lru lru' : LRU K V) (ops : List (LOp K V)),
      runLOps lru ops = some lru' → lru.size ≤ lru'.size) := by
  constructor
  · exact fun sc ops => runSOps_size_mono ops sc
  · intro K V _ lru lru' ops hrun
    exact runLOps_rec (fun l => lru.size ≤ l.size)
      (fun l k v l' hP h => by
        rcases Add_size l k v l' h with ⟨_, hs⟩
        rcases hs with h1 | ⟨h1, _⟩ <;> omega)
      (fun l k hP => by
        rcases Get_state_size l k with ⟨h1, _⟩
        omega)
      ops lru lru' (le_refl _) hrun

/-- Claim C10 witness on concrete runs of both caches. -/
theorem claim_C10_witness :
    sampleSC.size ≤ (runSOps sampleSC [SOp.intern ⟨"a", 1⟩, SOp.prealloc, SOp.validate]).size ∧
    sampleLru.size ≤ ((runLOps sampleLru [LOp.add 1 1, LOp.get 1]).getD sampleLru).size := by
  rcases claim_C10 with ⟨h1, h2⟩
  exact ⟨h1 sampleSC _,
    h2 Nat Nat sampleLru ((runLOps sampleLru [LOp.add 1 1, LOp.get 1]).getD sampleLru)
      [LOp.add 1 1, LOp.get 1] (by decide)⟩


/-- Claim C3: for every cache of capacity N (N ≥ 1) filled with N distinct
fresh keys k1..kN added in that order with no intervening accesses, a
subsequent Add of a new distinct key k(N+1) succeeds and evicts exactly k1,
the least recently touched key: afterwards Peek(k1) reports not-found while
Peek of each of k2..kN and of k(N+1) reports found with its stored value. -/
theorem claim_C3 {K V : Type} [DecidableEq K] (ks : Nat → K) (vs : Nat → V) (N : Nat)
    (hN : 1 ≤ N) (hNmax : (N : Int) ≤ maxLRUSize)
    (hdist : ∀ i i', 1 ≤ i → i < i' → i' ≤ N + 1 → ks i ≠ ks i')
    (lru0 lru : LRU K V) (h0 : New K V (N : Int) = some lru0)
    (hrun : runLOps lru0 (fillOps ks vs N) = some lru) :
    ∃ lru', Add lru (ks (N + 1)) (vs (N + 1)) = some lru' ∧
      (Peek lru' (ks 1)).2 = false ∧
      (∀ i, 2 ≤ i → i ≤ N → Peek lru' (ks i) = (some (vs i), true)) ∧
      Peek lru' (ks (N + 1)) = (some (vs (N + 1)), true) := by
  obtain ⟨hsz, hms, h2len, hjlen, hlenN, hlen32, hroot, hslot, hhigh, hmap⟩ :=
    fillDesc_run ks vs N hN hNmax lru0 h0 N (le_refl N)
      (fun i i' a b c => hdist i i' a b (by omega)) lru hrun
  have hNlen : N < lru.buf.length := by exact_mod_cast hjlen
  have hprev : (lget lru.buf 0).prev = 1 := by
    rw [hroot]
    show (if N = 0 then 0 else 1) = 1
    rw [if_neg (by omega)]
  have hfind : mapFind lru.elements (some (ks (N + 1))) = none := by
    rw [hmap]
    exact mapFind_fillMap_none _ _ _
      (fun i a b hc => hdist i (N + 1) a (by omega) (le_refl _) (Option.some.inj hc))
  obtain ⟨hadd, hel, hval⟩ := Add_evict_state lru (ks (N + 1)) (vs (N + 1)) hfind
    (by rw [hsz, hms]; omega) (by rw [hprev]; omega) hlen32
  rw [hprev] at hadd hel hval
  have hkey1 : (lget lru.buf 1).key = some (ks 1) := by
    rw [hslot 1 (le_refl 1) hN]
  rw [hkey1] at hel
  refine ⟨_, hadd, ?_, ?_, ?_⟩
  · have hf : mapFind (addFill (addEvict lru).1 (ks (N + 1)) (vs (N + 1)) 1).elements
        (some (ks 1)) = none := by
      rw [hel, mapFind_mapInsert_ne _ _ _ _
        (fun hc => hdist 1 (N + 1) (le_refl 1) (by omega) (le_refl _) (Option.some.inj hc)),
        mapFind_mapDelete_self]
    rw [Peek_missing _ _ hf]
  · intro i h2i hiN
    have hf : mapFind (addFill (addEvict lru).1 (ks (N + 1)) (vs (N + 1)) 1).elements
        (some (ks i)) = some i := by
      rw [hel, mapFind_mapInsert_ne _ _ _ _
        (fun hc => hdist i (N + 1) (by omega) (by omega) (le_refl _) (Option.some.inj hc)),
        mapFind_mapDelete_ne _ _ _
        (fun hc => hdist 1 i (le_refl 1) (by omega) (by omega) ((Option.some.inj hc).symm)),
        hmap]
      exact mapFind_fillMap_found _ N i (by omega) hiN
        (fun t a b hc => hdist t i a b (by omega) (Option.some.inj hc))
    rw [Peek_found _ _ _ hf, hval i, if_neg (by omega : ¬ i = 1), hslot i (by omega) hiN]
  · have hf : mapFind (addFill (addEvict lru).1 (ks (N + 1)) (vs (N + 1)) 1).elements
        (some (ks (N + 1))) = some 1 := by
      rw [hel]
      exact mapFind_mapInsert_self _ _ _
    rw [Peek_found _ _ _ hf, hval 1, if_pos rfl]

theorem claim_C3_witness :
    1 ≤ 3 ∧
    (∃ lru', Add ((runLOps ((New Nat Nat 3).getD sampleLru)
          (fillOps (fun i => i) (fun i => i) 3)).getD sampleLru) 4 4 = some lru' ∧
      (Peek lru' 1).2 = false ∧
      (∀ i, 2 ≤ i → i ≤ 3 → Peek lru' i = (some i, true)) ∧
      Peek lru' 4 = (some 4, true)) :=
  ⟨by decide, claim_C3 (fun i => i) (fun i => i) 3 (by decide) (by decide)
    (fun i i' a b c => by show i ≠ i'; omega)
    ((New Nat Nat 3).getD sampleLru)
    ((runLOps ((New Nat Nat 3).getD sampleLru) (fillOps (fun i => i) (fun i => i) 3)).getD sampleLru)
    rfl rfl⟩


/-- Claim C6: Get on a present key refreshes recency: after filling a cache
of capacity N (N ≥ 3) with distinct fresh keys k1..kN in order, calling Get
on the two oldest keys k1 and k2 and then adding one new distinct key k(N+1)
evicts k3, the next-oldest key that was not accessed, and not k1 or k2,
which remain present with their stored values (as do k4..kN and k(N+1)). -/
theorem claim_C6 {K V : Type} [DecidableEq K] (ks : Nat → K) (vs : Nat → V) (N : Nat)
    (hN : 3 ≤ N) (hNmax : (N : Int) ≤ maxLRUSize)
    (hdist : ∀ i i', 1 ≤ i → i < i' → i' ≤ N + 1 → ks i ≠ ks i')
    (lru0 lru2 : LRU K V) (h0 : New K V (N : Int) = some lru0)
    (hrun : runLOps lru0 (fillOps ks vs N ++ [LOp.get (ks 1), LOp.get (ks 2)]) = some lru2) :
    ∃ lru', Add lru2 (ks (N + 1)) (vs (N + 1)) = some lru' ∧
      (Peek lru' (ks 3)).2 = false ∧
      Peek lru' (ks 1) = (some (vs 1), true) ∧
      Peek lru' (ks 2) = (some (vs 2), true) ∧
      (∀ i, 4 ≤ i → i ≤ N → Peek lru' (ks i) = (some (vs i), true)) ∧
      Peek lru' (ks (N + 1)) = (some (vs (N + 1)), true) := by
  rw [runLOps_append] at hrun
  cases hmid : runLOps lru0 (fillOps ks vs N) with
  | none =>
    rw [hmid] at hrun
    exact Option.noConfusion hrun
  | some mid =>
    rw [hmid] at hrun
    obtain ⟨hsz, hms, h2len, hjlen, hlenN, hlen32, hroot, hslot, hhigh, hmap⟩ :=
      fillDesc_run ks vs N (by omega) hNmax lru0 h0 N (le_refl N)
        (fun i i' a b c => hdist i i' a b (by omega)) mid hmid
    have hNlen : N < mid.buf.length := by exact_mod_cast hjlen
    simp only [runLOps, applyLOp, Option.some.injEq] at hrun
    subst hrun
    have hroot' : lget mid.buf 0 = ⟨1, N, none, none⟩ := by
      rw [hroot, if_neg (by omega)]
    have hs1 : lget mid.buf 1 = ⟨2, 0, some (ks 1), some (vs 1)⟩ := by
      rw [hslot 1 (le_refl 1) (by omega), if_neg (by omega)]
    have hs2 : lget mid.buf 2 = ⟨3, 1, some (ks 2), some (vs 2)⟩ := by
      rw [hslot 2 (by omega) (by omega), if_neg (by omega)]
    have hk3 : (lget mid.buf 3).key = some (ks 3) := by
      rw [hslot 3 (by omega) hN]
    have hnext0 : (lget mid.buf 0).next = N := by rw [hroot']
    have h1prev : (lget mid.buf 1).prev = 2 := by rw [hs1]
    have h1next : (lget mid.buf 1).next = 0 := by rw [hs1]
    have hf1 : mapFind mid.elements (some (ks 1)) = some 1 := by
      rw [hmap]
      exact mapFind_fillMap_found _ N 1 (le_refl 1) (by omega) (fun i a b => absurd b (by omega))
    have hg1 : (Get mid (ks 1)).2 = moveToFront mid 1 := by
      rw [Get_eq_hit _ _ _ hf1]
    have hfm1 := moveToFront_last mid 1
      (by rw [hnext0]; omega)
      (by rw [h1prev]; omega)
      h1next
      (by omega)
      (by omega)
      (by rw [h1prev]; omega)
      (by rw [h1prev]; omega)
      (by rw [hnext0]; omega)
      (by rw [hnext0]; omega)
    rw [hnext0, h1prev] at hfm1
    have hS1_0 : lget (moveToFront mid 1).buf 0 = ⟨2, 1, none, none⟩ := by
      rw [hfm1 0, if_neg (by omega), if_pos rfl, hroot']
    have hS1_2 : lget (moveToFront mid 1).buf 2 = ⟨3, 0, some (ks 2), some (vs 2)⟩ := by
      rw [hfm1 2, if_neg (by omega), if_neg (by omega), if_neg (by omega), if_pos rfl, hs2]
    have hS1next0 : (lget (moveToFront mid 1).buf 0).next = 1 := by rw [hS1_0]
    have hS1_2prev : (lget (moveToFront mid 1).buf 2).prev = 3 := by rw [hS1_2]
    have hS1_2next : (lget (moveToFront mid 1).buf 2).next = 0 := by rw [hS1_2]
    have hS1len : (moveToFront mid 1).buf.length = mid.buf.length := moveToFront_length mid 1
    have hf2 : mapFind (moveToFront mid 1).elements (some (ks 2)) = some 2 := by
      rw [moveToFront_elements, hmap]
      exact mapFind_fillMap_found _ N 2 (by omega) (by omega)
        (fun i a b hc => hdist i 2 a b (by omega) (Option.some.inj hc))
    have hg2 : (Get (moveToFront mid 1) (ks 2)).2 = moveToFront (moveToFront mid 1) 2 := by
      rw [Get_eq_hit _ _ _ hf2]
    have hfm2 := moveToFront_last (moveToFront mid 1) 2
      (by rw [hS1next0]; omega)
      (by rw [hS1_2prev]; omega)
      hS1_2next
      (by omega)
      (by rw [hS1len]; omega)
      (by rw [hS1_2prev]; omega)
      (by rw [hS1_2prev, hS1len]; omega)
      (by rw [hS1next0]; omega)
      (by rw [hS1next0, hS1len]; omega)
    rw [hS1next0, hS1_2prev] at hfm2
    have hS2_0 : (lget (moveToFront (moveToFront mid 1) 2).buf 0).prev = 3 := by
      rw [hfm2 0, if_neg (by omega), if_pos rfl]
    have hS2k3 : (lget (moveToFront (moveToFront mid 1) 2).buf 3).key = some (ks 3) := by
      rw [key_moveToFront, key_moveToFront, hk3]
    have hS2val : ∀ i, (lget (moveToFront (moveToFront mid 1) 2).buf i).value =
        (lget mid.buf i).value := by
      intro i
      rw [value_moveToFront, value_moveToFront]
    have hS2el : (moveToFront (moveToFront mid 1) 2).elements =
        fillMap (fun i => some (ks i)) N := by
      rw [moveToFront_elements, moveToFront_elements, hmap]
    have hS2sz : (moveToFront (moveToFront mid 1) 2).size = (N : Int) := by
      rw [moveToFront_size, moveToFront_size, hsz]
    have hS2ms : (moveToFront (moveToFront mid 1) 2).maxSize = (N : Int) := by
      rw [moveToFront_maxSize, moveToFront_maxSize, hms]
    have hS2len : (moveToFront (moveToFront mid 1) 2).buf.length = mid.buf.length := by
      rw [moveToFront_length, moveToFront_length]
    have hfindN1 : mapFind (moveToFront (moveToFront mid 1) 2).elements
        (some (ks (N + 1))) = none := by
      rw [hS2el]
      exact mapFind_fillMap_none _ _ _
        (fun i a b hc => hdist i (N + 1) a (by omega) (le_refl _) (Option.some.inj hc))
    obtain ⟨hadd, hel, hval⟩ := Add_evict_state (moveToFront (moveToFront mid 1) 2)
      (ks (N + 1)) (vs (N + 1)) hfindN1
      (by rw [hS2sz, hS2ms]; omega)
      (by rw [hS2_0, hS2len]; omega)
      (by rw [hS2len]; omega)
    rw [hS2_0] at hadd hel hval
    rw [hS2k3, hS2el] at hel
    rw [hg1, hg2]
    refine ⟨_, hadd, ?_, ?_, ?_, ?_, ?_⟩
    · have hf : mapFind (addFill (addEvict (moveToFront (moveToFront mid 1) 2)).1
          (ks (N + 1)) (vs (N + 1)) 3).elements (some (ks 3)) = none := by
        rw [hel, mapFind_mapInsert_ne _ _ _ _
          (fun hc => hdist 3 (N + 1) (by omega) (by omega) (le_refl _) (Option.some.inj hc)),
          mapFind_mapDelete_self]
      rw [Peek_missing _ _ hf]
    · have hf : mapFind (addFill (addEvict (moveToFront (moveToFront mid 1) 2)).1
          (ks (N + 1)) (vs (N + 1)) 3).elements (some (ks 1)) = some 1 := by
        rw [hel, mapFind_mapInsert_ne _ _ _ _
          (fun hc => hdist 1 (N + 1) (le_refl 1) (by omega) (le_refl _) (Option.some.inj hc)),
          mapFind_mapDelete_ne _ _ _
          (fun hc => hdist 1 3 (le_refl 1) (by omega) (by omega) (Option.some.inj hc))]
        exact mapFind_fillMap_found _ N 1 (le_refl 1) (by omega)
          (fun t a b => absurd b (by omega))
      rw [Peek_found _ _ _ hf, hval 1, if_neg (by omega : ¬ (1 : Nat) = 3), hS2val 1, hs1]
    · have hf : mapFind (addFill (addEvict (moveToFront (moveToFront mid 1) 2)).1
          (ks (N + 1)) (vs (N + 1)) 3).elements (some (ks 2)) = some 2 := by
        rw [hel, mapFind_mapInsert_ne _ _ _ _
          (fun hc => hdist 2 (N + 1) (by omega) (by omega) (le_refl _) (Option.some.inj hc)),
          mapFind_mapDelete_ne _ _ _
          (fun hc => hdist 2 3 (by omega) (by omega) (by omega) (Option.some.inj hc))]
        exact mapFind_fillMap_found _ N 2 (by omega) (by omega)
          (fun t a b hc => hdist t 2 a b (by omega) (Option.some.inj hc))
      rw [Peek_found _ _ _ hf, hval 2, if_neg (by omega : ¬ (2 : Nat) = 3), hS2val 2, hs2]
    · intro i h4i hiN
      have hf : mapFind (addFill (addEvict (moveToFront (moveToFront mid 1) 2)).1
          (ks (N + 1)) (vs (N + 1)) 3).elements (some (ks i)) = some i := by
        rw [hel, mapFind_mapInsert_ne _ _ _ _
          (fun hc => hdist i (N + 1) (by omega) (by omega) (le_refl _) (Option.some.inj hc)),
          mapFind_mapDelete_ne _ _ _
          (fun hc => hdist 3 i (by omega) (by omega) (by omega) ((Option.some.inj hc).symm))]
        exact mapFind_fillMap_found _ N i (by omega) hiN
          (fun t a b hc => hdist t i a b (by omega) (Option.some.inj hc))
      rw [Peek_found _ _ _ hf, hval i, if_neg (by omega : ¬ i = 3), hS2val i,
        hslot i (by omega) hiN]
    · have hf : mapFind (addFill (addEvict (moveToFront (moveToFront mid 1) 2)).1
          (ks (N + 1)) (vs (N + 1)) 3).elements (some (ks (N + 1))) = some 3 := by
        rw [hel]
        exact mapFind_mapInsert_self _ _ _
      rw [Peek_found _ _ _ hf, hval 3, if_pos rfl]

theorem claim_C6_witness :
    3 ≤ 3 ∧
    (∃ lru', Add ((runLOps ((New Nat Nat 3).getD sampleLru)
          (fillOps (fun i => i) (fun i => i) 3 ++ [LOp.get 1, LOp.get 2])).getD sampleLru)
        4 4 = some lru' ∧
      (Peek lru' 3).2 = false ∧
      Peek lru' 1 = (some 1, true) ∧
      Peek lru' 2 = (some 2, true) ∧
      (∀ i, 4 ≤ i → i ≤ 3 → Peek lru' i = (some i, true)) ∧
      Peek lru' 4 = (some 4, true)) :=
  ⟨by decide, claim_C6 (fun i => i) (fun i => i) 3 (by decide) (by decide)
    (fun i i' a b c => by show i ≠ i'; omega)
    ((New Nat Nat 3).getD sampleLru)
    ((runLOps ((New Nat Nat 3).getD sampleLru)
      (fillOps (fun i => i) (fun i => i) 3 ++ [LOp.get 1, LOp.get 2])).getD sampleLru)
    rfl rfl⟩

/-- Claim C1, refutation: `Validate` reports an error on a reachable,
perfectly linked cache.  With capacity 2^32 − 1 (accepted by
`NewStringCache`), `Prealloc` grows the arena to 2^32 slots; after
interning two fresh strings, the walk check `next > uint32(len(buf))`
compares against `uint32(2^32) = 0`, so `Validate` returns an error even
though the linked structure is intact. -/
theorem claim_C1 :
    Validate (runSOps (scInit (2 ^ 32 - 1))
        [SOp.prealloc, SOp.intern ⟨"a", 1⟩, SOp.intern ⟨"b", 2⟩]) =
      some "the value next > len(buf)" := by
  have hrun : runSOps (scInit (2 ^ 32 - 1))
      [SOp.prealloc, SOp.intern ⟨"a", 1⟩, SOp.intern ⟨"b", 2⟩] =
      (Intern (Intern (Prealloc (scInit (2 ^ 32 - 1))) ⟨"a", 1⟩).2 ⟨"b", 2⟩).2 := by
    rw [runSOps_cons, applySOp_prealloc, runSOps_cons, applySOp_intern, runSOps_cons,
      applySOp_intern, runSOps_nil]
  rw [hrun]
  have hPlen : (Prealloc (scInit (2 ^ 32 - 1))).buf.length = 2 ^ 32 := by
    show (scRealloc (scInit (2 ^ 32 - 1)) ((scInit (2 ^ 32 - 1)).maxSize + 1)).buf.length = 2 ^ 32
    rw [scRealloc_length _ _ (by decide)]
    decide
  have hIget : ∀ i, lget (scInit ((2 : Int) ^ 32 - 1)).buf i = default := fun i =>
    lget_replicate _ _
  have hPget : ∀ i, lget (Prealloc (scInit (2 ^ 32 - 1))).buf i = default :=
    lget_scRealloc_default _ _ hIget
  obtain ⟨h1sz, h1ms, h1len, h1val, h1get⟩ :=
    Intern_fresh_desc (Prealloc (scInit (2 ^ 32 - 1))) ⟨"a", 1⟩ 0 rfl rfl
      (by decide)
      (by rw [hPlen]; decide)
      (by decide)
      (by rw [hPget]; rfl)
      (by rw [hPget]; decide)
      (by rw [hPget, hPlen]; decide)
  have hA1root : lget (Intern (Prealloc (scInit (2 ^ 32 - 1))) ⟨"a", 1⟩).2.buf 0 =
      ⟨default, 1, 1⟩ := by
    rw [h1get 0, hPget 0, if_neg (by decide), if_pos rfl,
      if_pos (show (default : stringElem).next = 0 from rfl)]
    rfl
  have hA1s2 : lget (Intern (Prealloc (scInit (2 ^ 32 - 1))) ⟨"a", 1⟩).2.buf (1 + 1) =
      default := by
    rw [h1get (1 + 1), hPget 0, if_neg (by decide), if_neg (by decide), if_neg (by decide),
      hPget (1 + 1)]
  obtain ⟨h2sz, h2ms, h2len, h2val, h2get⟩ :=
    Intern_fresh_desc (Intern (Prealloc (scInit (2 ^ 32 - 1))) ⟨"a", 1⟩).2 ⟨"b", 2⟩ 1
      (by rw [h1sz]; rfl)
      (by rw [h1val]; decide)
      (by rw [h1sz, h1ms]; decide)
      (by rw [h1len, hPlen]; rw [h1sz]; decide)
      (by decide)
      (by rw [hA1s2]; rfl)
      (by rw [hA1root]; decide)
      (by rw [hA1root, h1len, hPlen]; decide)
  have hA2root : lget (Intern (Intern (Prealloc (scInit (2 ^ 32 - 1))) ⟨"a", 1⟩).2
      ⟨"b", 2⟩).2.buf 0 = ⟨default, 1, 2⟩ := by
    rw [h2get 0, hA1root, if_neg (by decide), if_pos rfl, if_neg (by decide)]
  have hA2s2 : lget (Intern (Intern (Prealloc (scInit (2 ^ 32 - 1))) ⟨"a", 1⟩).2
      ⟨"b", 2⟩).2.buf 2 = ⟨⟨"b", 2⟩, 0, 1⟩ := by
    rw [h2get 2, if_pos (by decide), hA1root]
  have h2sz' : (Intern (Intern (Prealloc (scInit (2 ^ 32 - 1))) ⟨"a", 1⟩).2 ⟨"b", 2⟩).2.size =
      2 := by
    rw [h2sz, h1sz]
    rfl
  have h2len' : (Intern (Intern (Prealloc (scInit (2 ^ 32 - 1))) ⟨"a", 1⟩).2
      ⟨"b", 2⟩).2.buf.length = 2 ^ 32 := by
    rw [h2len, h1len, hPlen]
  unfold Validate
  rw [h2sz', hA2root]
  exact scValidateLoop_next_error _ 2 2 0
    (by decide)
    (by rw [h2len']; decide)
    (by rw [hA2s2, h2len']; decide)
    (by rw [hA2s2, show ((⟨⟨"b", 2⟩, 0, 1⟩ : stringElem)).prev = 0 from rfl, hA2root])
    (by rw [hA2s2, h2len']; decide)

end JujuLru
